import Mathlib

/-!
Verification of the tool-calling orchestration engine of the task-management
backend (files src/backend/src/agents/openrouter_assistant.py,
src/backend/src/agents/tool_executors.py, src/backend/src/services/chat_service.py,
src/backend/src/services/conversation_service.py, src/backend/src/api/chat.py).

Strings are modelled as `List Char`.  The Python regular-expression scans used
by `parse_xml_tool_calls` are modelled by explicit substring scanners whose
semantics match the specific patterns used in the source
(`<tool_call>(.*?)</tool_call>` with DOTALL, `<function=([^>]+)>`,
`<parameter=([^>]+)>\s*(.*?)\s*</parameter>`): a leftmost match begins at an
occurrence of the literal tag, a non-greedy body extends to the first
occurrence of the closing literal, and scanning resumes after the match.
-/

/-- First-occurrence splitter: scans `s` from the left for the first position
where `pat` is a prefix of the remaining suffix; returns the part before the
occurrence and the part after it.  This is the semantics shared by
`re.search`/`re.findall` for a pattern beginning with a literal. -/
def findSplit (pat : List Char) : List Char → Option (List Char × List Char)
  | [] => if List.isPrefixOf pat ([] : List Char) then some ([], []) else none
  | c :: rest =>
    if List.isPrefixOf pat (c :: rest) then
      some ([], List.drop pat.length (c :: rest))
    else
      match findSplit pat rest with
      | some pr => some (c :: pr.1, pr.2)
      | none => none

/-- Boolean substring test, modelling the Python expression `pat in s`. -/
def containsSub (pat s : List Char) : Bool :=
  (findSplit pat s).isSome

/-- The literal `<tool_call>` opening tag. -/
def openTagL : List Char := ['<', 't', 'o', 'o', 'l', '_', 'c', 'a', 'l', 'l', '>']

/-- The literal `</tool_call>` closing tag. -/
def closeTagL : List Char := ['<', '/', 't', 'o', 'o', 'l', '_', 'c', 'a', 'l', 'l', '>']

/-- The literal `<function=` tag opener. -/
def funcTagL : List Char := ['<', 'f', 'u', 'n', 'c', 't', 'i', 'o', 'n', '=']

/-- The literal `<parameter=` tag opener. -/
def paramTagL : List Char := ['<', 'p', 'a', 'r', 'a', 'm', 'e', 't', 'e', 'r', '=']

/-- The literal `</parameter>` closing tag. -/
def closeParamTagL : List Char := ['<', '/', 'p', 'a', 'r', 'a', 'm', 'e', 't', 'e', 'r', '>']

/-- The literal `</function>` closing tag (emitted by models following the
fallback grammar; the extractor itself never scans for it). -/
def closeFuncTagL : List Char := ['<', '/', 'f', 'u', 'n', 'c', 't', 'i', 'o', 'n', '>']

/-- Whitespace characters stripped by Python `str.strip()` (ASCII subset;
the inputs handled by the agent grammar use only these). -/
def isSpaceChar (c : Char) : Bool :=
  c == ' ' || c == '\t' || c == '\n' || c == '\r' || c == '\x0b' || c == '\x0c'

/-- Model of Python `str.strip()`: remove leading and trailing whitespace. -/
def stripSpaces (s : List Char) : List Char :=
  ((s.dropWhile isSpaceChar).reverse.dropWhile isSpaceChar).reverse

/-- Whitespace accepted between JSON tokens (per the JSON grammar used by
the external `json` library). -/
def isJsonWs (c : Char) : Bool :=
  c == ' ' || c == '\t' || c == '\n' || c == '\r'

/-- Skip JSON inter-token whitespace. -/
def skipWs (s : List Char) : List Char := s.dropWhile isJsonWs

/-- JSON values, as produced by the external `json.loads`.  Numbers keep
their source-text token; object fields keep Python dict insertion order with
later duplicate keys overwriting earlier ones. -/
inductive Json where
  | null : Json
  | bool (b : Bool) : Json
  | num (tok : List Char) : Json
  | str (chars : List Char) : Json
  | arr (elems : List Json) : Json
  | obj (fields : List (List Char × Json)) : Json

/-- Insert-or-overwrite into an association list, modelling assignment into a
Python dict: an existing key keeps its position and receives the new value, a
new key is appended at the end (insertion order). -/
def dictInsert {α : Type} (k : List Char) (v : α) :
    List (List Char × α) → List (List Char × α)
  | [] => [(k, v)]
  | (k', v') :: rest =>
    if k = k' then (k, v) :: rest else (k', v') :: dictInsert k v rest

/-- Hexadecimal digit value, for JSON `\u` escapes. -/
def hexVal (c : Char) : Option Nat :=
  if '0' ≤ c ∧ c ≤ '9' then some (c.toNat - '0'.toNat)
  else if 'a' ≤ c ∧ c ≤ 'f' then some (c.toNat - 'a'.toNat + 10)
  else if 'A' ≤ c ∧ c ≤ 'F' then some (c.toNat - 'A'.toNat + 10)
  else none

/-- Parse the body of a JSON string literal (the opening quote already
consumed): returns the decoded characters and the rest of the input after the
closing quote.  Unescaped control characters are rejected, as by the strict
mode of the external library. -/
def parseStrBody : List Char → Option (List Char × List Char)
  | [] => none
  | c :: r =>
    if c == '"' then some ([], r)
    else if c == '\\' then
      match r with
      | [] => none
      | e :: r2 =>
        if e == '"' then (parseStrBody r2).map (fun pr => ('"' :: pr.1, pr.2))
        else if e == '\\' then (parseStrBody r2).map (fun pr => ('\\' :: pr.1, pr.2))
        else if e == '/' then (parseStrBody r2).map (fun pr => ('/' :: pr.1, pr.2))
        else if e == 'b' then (parseStrBody r2).map (fun pr => ('\x08' :: pr.1, pr.2))
        else if e == 'f' then (parseStrBody r2).map (fun pr => ('\x0c' :: pr.1, pr.2))
        else if e == 'n' then (parseStrBody r2).map (fun pr => ('\n' :: pr.1, pr.2))
        else if e == 'r' then (parseStrBody r2).map (fun pr => ('\r' :: pr.1, pr.2))
        else if e == 't' then (parseStrBody r2).map (fun pr => ('\t' :: pr.1, pr.2))
        else if e == 'u' then
          match r2 with
          | h1 :: h2 :: h3 :: h4 :: r3 =>
            match hexVal h1, hexVal h2, hexVal h3, hexVal h4 with
            | some a, some b, some cc, some d =>
              (parseStrBody r3).map
                (fun pr => (Char.ofNat (((a * 16 + b) * 16 + cc) * 16 + d) :: pr.1, pr.2))
            | _, _, _, _ => none
          | _ => none
        else none
    else if c.toNat < 32 then none
    else (parseStrBody r).map (fun pr => (c :: pr.1, pr.2))

/-- Parse a JSON number token (sign, integer part, optional fraction and
exponent); returns the token text and the rest of the input. -/
def parseNumTok (s : List Char) : Option (List Char × List Char) :=
  let core : List Char → Option (List Char × List Char) := fun t =>
    match t with
    | [] => none
    | c :: r =>
      if c == '0' then some (['0'], r)
      else if c.isDigit then
        some (c :: r.takeWhile Char.isDigit, r.dropWhile Char.isDigit)
      else none
  let withFrac : List Char × List Char → List Char × List Char := fun pr =>
    match pr.2 with
    | '.' :: d :: r =>
      if d.isDigit then
        (pr.1 ++ '.' :: d :: r.takeWhile Char.isDigit, r.dropWhile Char.isDigit)
      else pr
    | _ => pr
  let withExp : List Char × List Char → List Char × List Char := fun pr =>
    match pr.2 with
    | e :: rest =>
      if e == 'e' || e == 'E' then
        match rest with
        | sgn :: d :: r =>
          if (sgn == '+' || sgn == '-') && d.isDigit then
            (pr.1 ++ e :: sgn :: d :: r.takeWhile Char.isDigit, r.dropWhile Char.isDigit)
          else if sgn.isDigit then
            (pr.1 ++ e :: sgn :: rest.tail.takeWhile Char.isDigit,
             rest.tail.dropWhile Char.isDigit)
          else pr
        | [d] =>
          if d.isDigit then (pr.1 ++ [e, d], []) else pr
        | [] => pr
      else pr
    | [] => pr
  match s with
  | '-' :: r => (core r).map (fun pr => withExp (withFrac ('-' :: pr.1, pr.2)))
  | _ => (core s).map (fun pr => withExp (withFrac pr))

/-- Fuel-bounded recursive-descent JSON value parser, modelling the external
`json.loads` grammar (objects, arrays, strings, numbers, `true`/`false`/
`null`; the non-standard `NaN`/`Infinity` extensions are not modelled).
Container continuations are parsed by re-entering the same function with the
opening bracket re-attached, so the recursion is structural in the fuel. -/
def parseVal : Nat → List Char → Option (Json × List Char)
  | 0, _ => none
  | Nat.succ fuel, s =>
    match skipWs s with
    | [] => none
    | c :: r =>
      if c == '\x7b' then
        match skipWs r with
        | '\x7d' :: r2 => some (Json.obj [], r2)
        | '"' :: r2 =>
          match parseStrBody r2 with
          | none => none
          | some (key, r3) =>
            match skipWs r3 with
            | ':' :: r4 =>
              match parseVal fuel r4 with
              | none => none
              | some (v, r5) =>
                match skipWs r5 with
                | ',' :: r6 =>
                  match skipWs r6 with
                  | '\x7d' :: _ => none
                  | _ =>
                    match parseVal fuel ('\x7b' :: r6) with
                    | some (Json.obj fs, r7) =>
                      some (Json.obj (fs.foldl (fun m kv => dictInsert kv.1 kv.2 m) [(key, v)]), r7)
                    | some _ => none
                    | none => none
                | '\x7d' :: r6 => some (Json.obj [(key, v)], r6)
                | _ => none
            | _ => none
        | _ => none
      else if c == '[' then
        match skipWs r with
        | ']' :: r2 => some (Json.arr [], r2)
        | _ =>
          match parseVal fuel r with
          | none => none
          | some (v, r3) =>
            match skipWs r3 with
            | ',' :: r4 =>
              match skipWs r4 with
              | ']' :: _ => none
              | _ =>
                match parseVal fuel ('[' :: r4) with
                | some (Json.arr vs, r5) => some (Json.arr (v :: vs), r5)
                | some _ => none
                | none => none
            | ']' :: r4 => some (Json.arr [v], r4)
            | _ => none
      else if c == '"' then
        (parseStrBody r).map (fun pr => (Json.str pr.1, pr.2))
      else if c == 't' then
        if List.isPrefixOf ['r', 'u', 'e'] r then some (Json.bool true, r.drop 3) else none
      else if c == 'f' then
        if List.isPrefixOf ['a', 'l', 's', 'e'] r then some (Json.bool false, r.drop 4) else none
      else if c == 'n' then
        if List.isPrefixOf ['u', 'l', 'l'] r then some (Json.null, r.drop 3) else none
      else
        match parseNumTok (c :: r) with
        | some (tok, rest) => some (Json.num tok, rest)
        | none => none

/-- Model of the external library call `json.loads`: parse one JSON value and
require only trailing whitespace after it (`Extra data` otherwise). -/
def jsonLoads (s : List Char) : Option Json :=
  match parseVal (2 * s.length + 4) s with
  | some (j, rest) => if (skipWs rest).isEmpty then some j else none
  | none => none

/-- Fuel-bounded scan for the findall scan with pattern `<tool_call>(.*?)</tool_call>` under DOTALL:
repeatedly find the next `<tool_call>`, take the (non-greedy) body up to the
first following `</tool_call>`, and continue after it.  An opening tag with no
closing tag after it yields no further matches. -/
def extractBlocksF : Nat → List Char → List (List Char)
  | 0, _ => []
  | Nat.succ fuel, s =>
    match findSplit openTagL s with
    | none => []
    | some (_, afterOpen) =>
      match findSplit closeTagL afterOpen with
      | none => []
      | some (inner, afterClose) => inner :: extractBlocksF fuel afterClose

/-- The tool-call block interiors of a text, in source order
(source: `re.findall(tool_call_pattern, content, re.DOTALL)`). -/
def extractBlocks (s : List Char) : List (List Char) :=
  extractBlocksF (s.length + 1) s

/-- Fuel-bounded scan for the search with pattern `<function=([^>]+)>`: at each
occurrence of `<function=`, the name is the maximal run of non-`>` characters;
the candidate matches when that run is non-empty and is followed by `>`,
otherwise the scan continues at the next occurrence. -/
def extractFunctionNameF : Nat → List Char → Option (List Char)
  | 0, _ => none
  | Nat.succ fuel, s =>
    match findSplit funcTagL s with
    | none => none
    | some (_, rest) =>
      let nm := rest.takeWhile (fun c => c ≠ '>')
      if nm.isEmpty = false ∧ nm.length < rest.length then some nm
      else extractFunctionNameF fuel rest

/-- The raw (unstripped) captured function name of a block, if any. -/
def extractFunctionName (s : List Char) : Option (List Char) :=
  extractFunctionNameF (s.length + 1) s

/-- Fuel-bounded scan for
the findall scan with pattern `<parameter=([^>]+)>\s*(.*?)\s*</parameter>` under DOTALL.
Each successful match yields the raw parameter name (maximal non-`>` run after
`<parameter=`, non-empty) and the raw text between the closing `>` of the
opener and the first following `</parameter>`; surrounding whitespace of both
is removed afterwards in `parseBlockCall`, matching the `.strip()` calls in the
source (the regex `\s*` groups only shift whitespace the `.strip()` removes
anyway). -/
def extractParamsF : Nat → List Char → List (List Char × List Char)
  | 0, _ => []
  | Nat.succ fuel, s =>
    match findSplit paramTagL s with
    | none => []
    | some (_, rest) =>
      let nm := rest.takeWhile (fun c => c ≠ '>')
      if nm.isEmpty = false ∧ nm.length < rest.length then
        let afterGt := rest.drop (nm.length + 1)
        match findSplit closeParamTagL afterGt with
        | none => extractParamsF fuel rest
        | some (vraw, afterClose) => (nm, vraw) :: extractParamsF fuel afterClose
      else extractParamsF fuel rest

/-- The raw (name, value) parameter captures of a block, in source order. -/
def extractParams (s : List Char) : List (List Char × List Char) :=
  extractParamsF (s.length + 1) s

/-- Argument values held in an extracted call: either a structure produced by
`json.loads` or the trimmed raw string. -/
inductive ArgValue where
  | json (j : Json) : ArgValue
  | str (s : List Char) : ArgValue

/-- Does the trimmed value look like JSON
(source: the startswith checks for a brace or a bracket)? -/
def jsonStart : List Char → Bool
  | [] => false
  | c :: _ => c == '\x7b' || c == '['

/-- Interpretation of a trimmed parameter value (source lines 67-74 of
`openrouter_assistant.py`): a JSON-looking value is parsed with `json.loads`,
keeping the raw string when parsing fails; any other value is kept as the
trimmed string. -/
def interpretValue (t : List Char) : ArgValue :=
  if jsonStart t then
    match jsonLoads t with
    | some j => ArgValue.json j
    | none => ArgValue.str t
  else ArgValue.str t

/-- A normalized extracted tool call:
`{"name": function_name, "arguments": arguments}`. -/
structure ExtractedToolCall where
  name : List Char
  arguments : List (List Char × ArgValue)

/-- Interpretation of one tool-call block interior: `None` when no function
name resolves (the block is dropped), otherwise the stripped name together
with the argument dict built left-to-right by insert-or-overwrite. -/
def parseBlockCall (block : List Char) : Option ExtractedToolCall :=
  match extractFunctionName block with
  | none => none
  | some rawName =>
    some { name := stripSpaces rawName,
           arguments :=
             (extractParams block).foldl
               (fun m pr => dictInsert (stripSpaces pr.1) (interpretValue (stripSpaces pr.2)) m)
               [] }

/-- Model of `parse_xml_tool_calls` (source lines 34-81): all tool-call block
interiors are scanned in source order; blocks with no resolvable function name
are dropped. -/
def parse_xml_tool_calls (content : List Char) : List ExtractedToolCall :=
  (extractBlocks content).filterMap parseBlockCall

/-- Fuel-bounded model of
the sub call replacing pattern `<tool_call>.*?</tool_call>` by the empty string under DOTALL: every
non-overlapping leftmost-shortest `<tool_call>…</tool_call>` span is removed;
an opening tag with no closing tag after it is left in place. -/
def subSpansF : Nat → List Char → List Char
  | 0, s => s
  | Nat.succ fuel, s =>
    match findSplit openTagL s with
    | none => s
    | some (pre, afterOpen) =>
      match findSplit closeTagL afterOpen with
      | none => s
      | some (_, afterClose) => pre ++ subSpansF fuel afterClose

/-- Removal of complete `<tool_call>…</tool_call>` spans from a text. -/
def subSpans (s : List Char) : List Char :=
  subSpansF (s.length + 1) s

/-- The tool registry of `tool_executors.py` (`TOOL_FUNCTIONS`): the names of
the five registered executor functions, in declaration order. -/
def TOOL_FUNCTIONS : List (List Char) :=
  [("add_task").toList, ("list_tasks").toList, ("complete_task").toList,
   ("delete_task").toList, ("update_task").toList]

/-- Model of `get_tool_function`: `TOOL_FUNCTIONS.get(tool_name)` yields the
executor when the name is registered and `None` otherwise (the executor itself
is environment-provided at dispatch time). -/
def get_tool_function (tool_name : List Char) : Option Unit :=
  if tool_name ∈ TOOL_FUNCTIONS then some () else none

/-- Outcome of invoking one tool executor: the handler returns a payload or
raises an exception with a message.  Handlers touch the database, so their
outcomes are supplied by the environment. -/
inductive ToolOutcome where
  | ok (payload : Json) : ToolOutcome
  | exn (msg : List Char) : ToolOutcome

/-- An entry of `tool_calls_data`:
`{"tool_name": …, "parameters": …, "result": …}`. -/
structure ToolCallRecord where
  tool_name : List Char
  parameters : Json
  result : Json

/-- The `{"error": str(e)}` payload recorded when a handler raises. -/
def errorResult (m : List Char) : Json :=
  Json.obj [(("error").toList, Json.str m)]

/-- Conversion of an argument value to the JSON-like structure it denotes
(a parsed value stays itself, a raw string is a string). -/
def argValueJson : ArgValue → Json
  | ArgValue.json j => j
  | ArgValue.str s => Json.str s

/-- The argument dict of an extracted call as a JSON object (insertion order
preserved). -/
def argMapToJson (m : List (List Char × ArgValue)) : Json :=
  Json.obj (m.map (fun kv => (kv.1, argValueJson kv.2)))

/-- The record appended for one executed XML-path call (source lines 274-287):
a successful handler contributes its payload, a raising handler contributes
`{"error": str(e)}`; either way one record is appended and the loop continues. -/
def execCall (bX : List Char → List (List Char × ArgValue) → ToolOutcome)
    (c : ExtractedToolCall) : ToolCallRecord :=
  { tool_name := c.name,
    parameters := argMapToJson c.arguments,
    result :=
      match bX c.name c.arguments with
      | ToolOutcome.ok p => p
      | ToolOutcome.exn m => errorResult m }

/-- The XML-path dispatch loop (source lines 264-287): look up each extracted
call in the registry; execute and append one record when registered, silently
skip the call when `get_tool_function` returns `None`. -/
def dispatchXml (bX : List Char → List (List Char × ArgValue) → ToolOutcome) :
    List ExtractedToolCall → List ToolCallRecord
  | [] => []
  | c :: rest =>
    if (get_tool_function c.name).isSome then execCall bX c :: dispatchXml bX rest
    else dispatchXml bX rest

/-- A structured (OpenAI-format) tool call as delivered in
`ai_message["tool_calls"]`: an id, a function name, and the raw JSON text of
its arguments. -/
structure StructuredCall where
  callId : List Char
  fname : List Char
  argsRaw : List Char

/-- Python exception values crossing the layers of the request cycle. -/
inductive PyExc where
  | valueError (msg : List Char) : PyExc
  | permissionError (msg : List Char) : PyExc
  | agentProcessingError (msg : List Char) : PyExc
  | chatServiceError (msg : List Char) : PyExc
  | conversationServiceError (msg : List Char) : PyExc
  | conversationNotFoundError (msg : List Char) : PyExc
  | otherError (msg : List Char) : PyExc

/-- The message carried by an exception. -/
def PyExc.msg : PyExc → List Char
  | PyExc.valueError m => m
  | PyExc.permissionError m => m
  | PyExc.agentProcessingError m => m
  | PyExc.chatServiceError m => m
  | PyExc.conversationServiceError m => m
  | PyExc.conversationNotFoundError m => m
  | PyExc.otherError m => m

/-- Membership in the `AgentError` hierarchy of `openrouter_assistant.py`
(`AgentProcessingError` is its only raised subclass). -/
def PyExc.isAgentError : PyExc → Bool
  | PyExc.agentProcessingError _ => true
  | _ => false

/-- Membership in the `ConversationServiceError` hierarchy
(`ConversationNotFoundError` subclasses it). -/
def PyExc.isConvServiceError : PyExc → Bool
  | PyExc.conversationServiceError _ => true
  | PyExc.conversationNotFoundError _ => true
  | _ => false

/-- Is the exception a `ChatServiceError`? -/
def PyExc.isChatServiceError : PyExc → Bool
  | PyExc.chatServiceError _ => true
  | _ => false

/-- Is the exception a `ValueError`? -/
def PyExc.isValueError : PyExc → Bool
  | PyExc.valueError _ => true
  | _ => false

/-- Is the exception a `PermissionError`? -/
def PyExc.isPermissionError : PyExc → Bool
  | PyExc.permissionError _ => true
  | _ => false

/-- The structured-path dispatch loop (source lines 199-221):
`json.loads(tool_call["function"]["arguments"])` runs before the registry
lookup and is not guarded, so a malformed argument payload raises a
`JSONDecodeError` that aborts the whole loop; a registered name contributes
one record (payload or `{"error": …}`), an unregistered name is silently
skipped. -/
def dispatchStructured (bJ : List Char → Json → ToolOutcome) :
    List StructuredCall → Except PyExc (List ToolCallRecord)
  | [] => Except.ok []
  | c :: rest =>
    match jsonLoads c.argsRaw with
    | none => Except.error (PyExc.otherError (("JSONDecodeError").toList))
    | some args =>
      if (get_tool_function c.fname).isSome then
        let rec0 : ToolCallRecord :=
          { tool_name := c.fname, parameters := args,
            result :=
              match bJ c.fname args with
              | ToolOutcome.ok p => p
              | ToolOutcome.exn m => errorResult m }
        match dispatchStructured bJ rest with
        | Except.ok d => Except.ok (rec0 :: d)
        | Except.error e => Except.error e
      else dispatchStructured bJ rest

/-- Outcome of the second (synthesis) HTTP round-trip: a completed response
with a status code and text, or an exception raised by the transport. -/
inductive CallOutcome where
  | http (status : Nat) (text : List Char) : CallOutcome
  | raised (msg : List Char) : CallOutcome

/-- The final message produced from the synthesis round-trip (source lines
251-255 and 323-327): a 200 response supplies its text, any other status falls
back to the fixed string, and a raised transport exception propagates. -/
def synthOutcome : CallOutcome → Except PyExc (List Char)
  | CallOutcome.http status text =>
    if status == 200 then Except.ok text
    else Except.ok (("I\x27ve completed the task.").toList)
  | CallOutcome.raised m => Except.error (PyExc.otherError m)

/-- The reply dict of `process_message`:
`{"message": final_message, "tool_calls": tool_calls_data or None}`. -/
structure AgentReplyDict where
  message : List Char
  tool_calls : Option (List ToolCallRecord)

/-- Final cleanup of the reply (source lines 336-343): remove any remaining
complete `<tool_call>…</tool_call>` spans, strip whitespace, substitute
`Done!` for an empty result, and attach the executed-tool records (`None` when
no tool ran). -/
def finalizeMessage (fm : List Char) (data : List ToolCallRecord) : AgentReplyDict :=
  { message :=
      if (stripSpaces (subSpans fm)).isEmpty then ("Done!").toList
      else stripSpaces (subSpans fm),
    tool_calls := if data.isEmpty then none else some data }

/-- The per-turn logic of `process_message` after a successful first provider
call (source lines 186-344).  Branches: structured tool calls when present and
non-empty; otherwise XML-style calls when the content mentions `<tool_call>`;
otherwise plain text.  `final_message` is threaded as in the source: the
structured path with skipped calls hits the unguarded `tool_calls_data[i]`
indexing (IndexError), and both dispatch paths leave `final_message` unbound
when every call was skipped (UnboundLocalError at the cleanup line). -/
def processMessageCore
    (structuredCalls : List StructuredCall) (content : List Char)
    (synth : CallOutcome)
    (bJ : List Char → Json → ToolOutcome)
    (bX : List Char → List (List Char × ArgValue) → ToolOutcome) :
    Except PyExc AgentReplyDict :=
  if structuredCalls.isEmpty = false then
    match dispatchStructured bJ structuredCalls with
    | Except.error e => Except.error e
    | Except.ok data =>
      if data.isEmpty = false then
        if data.length < structuredCalls.length then
          Except.error (PyExc.otherError (("IndexError: list index out of range").toList))
        else
          match synthOutcome synth with
          | Except.error e => Except.error e
          | Except.ok fm => Except.ok (finalizeMessage fm data)
      else
        Except.error (PyExc.otherError (("UnboundLocalError: final_message").toList))
  else if content.isEmpty = false && containsSub openTagL content then
    if (parse_xml_tool_calls content).isEmpty = false then
      if (dispatchXml bX (parse_xml_tool_calls content)).isEmpty = false then
        match synthOutcome synth with
        | Except.error e => Except.error e
        | Except.ok fm =>
          Except.ok (finalizeMessage fm (dispatchXml bX (parse_xml_tool_calls content)))
      else
        Except.error (PyExc.otherError (("UnboundLocalError: final_message").toList))
    else
      Except.ok
        (finalizeMessage
          (if (stripSpaces (subSpans content)).isEmpty then
            ("I\x27m working on that for you.").toList
          else stripSpaces (subSpans content)) [])
  else
    Except.ok
      (finalizeMessage
        (if content.isEmpty then ("I\x27m here to help!").toList else content) [])

/-- Outcome of the first provider round-trip: a completed response carrying
the structured calls and text content of `choices[0].message`, or a raised
transport exception. -/
inductive FirstOutcome where
  | http (status : Nat) (structuredCalls : List StructuredCall) (content : List Char) :
      FirstOutcome
  | raised (msg : List Char) : FirstOutcome

/-- Environment of one `process_message` invocation: the provider outcomes and
the (database-touching) tool executors. -/
structure MsgEnv where
  first : FirstOutcome
  synth : CallOutcome
  bJ : List Char → Json → ToolOutcome
  bX : List Char → List (List Char × ArgValue) → ToolOutcome

/-- The try-body of `OpenRouterAssistant.process_message` (source lines
138-344): a non-200 first response raises `AgentProcessingError`, a raised
transport exception propagates, and a 200 response is handled by the per-turn
logic. -/
def processMessageTry (env : MsgEnv) : Except PyExc AgentReplyDict :=
  match env.first with
  | FirstOutcome.raised m => Except.error (PyExc.otherError m)
  | FirstOutcome.http status calls content =>
    if status ≠ 200 then
      Except.error
        (PyExc.agentProcessingError
          ((("OpenRouter API error: ").toList) ++ (Nat.repr status).toList))
    else processMessageCore calls content env.synth env.bJ env.bX

/-- Model of `OpenRouterAssistant.process_message` (source lines 121-348):
the enclosing `except Exception` wraps every escaping exception into
`AgentProcessingError("Failed to process message: …")`. -/
def process_message (env : MsgEnv) : Except PyExc AgentReplyDict :=
  match processMessageTry env with
  | Except.ok r => Except.ok r
  | Except.error e =>
    Except.error (PyExc.agentProcessingError ((("Failed to process message: ").toList) ++ e.msg))

/-- The response dict of `process_chat_request`:
`{conversation_id, message, tool_calls}`. -/
structure ChatResponse where
  conversation_id : Nat
  message : List Char
  tool_calls : Option (List ToolCallRecord)

/-- Environment of one `process_chat_request` invocation: the outcomes of the
database-touching steps and the provider environment. -/
structure ChatEnv where
  conv : Except PyExc Nat
  history : Except PyExc (List (List Char))
  userIdValid : Bool
  msgEnv : MsgEnv
  save : Except PyExc Unit

/-- The try-body of `ChatService.process_chat_request` (source lines 77-151):
conversation lookup, history fetch and context building run unguarded inside
the outer `try`; an `AgentError` from the agent becomes
a fixed-text `ChatServiceError`; a `ConversationServiceError` from
the save step is swallowed. -/
def processChatRequestTry (env : ChatEnv) : Except PyExc ChatResponse :=
  match env.conv with
  | Except.error e => Except.error e
  | Except.ok convId =>
    match env.history with
    | Except.error e => Except.error e
    | Except.ok _hist =>
      if env.userIdValid = false then
        Except.error (PyExc.valueError (("Invalid user_id format").toList))
      else
        match process_message env.msgEnv with
        | Except.error e =>
          if e.isAgentError then
            Except.error
              (PyExc.chatServiceError
                (("I\x27m having trouble processing your request. Please try again.").toList))
          else Except.error e
        | Except.ok r =>
          match env.save with
          | Except.error e =>
            if e.isConvServiceError then
              Except.ok { conversation_id := convId, message := r.message,
                          tool_calls := r.tool_calls }
            else Except.error e
          | Except.ok _ =>
            Except.ok { conversation_id := convId, message := r.message,
                        tool_calls := r.tool_calls }

/-- Model of `ChatService.process_chat_request` (source lines 44-161): the
outer handler re-raises `ChatServiceError` and wraps every other exception
into `ChatServiceError("An unexpected error occurred. …")`. -/
def process_chat_request (env : ChatEnv) : Except PyExc ChatResponse :=
  match processChatRequestTry env with
  | Except.ok r => Except.ok r
  | Except.error e =>
    if e.isChatServiceError then Except.error e
    else
      Except.error
        (PyExc.chatServiceError (("An unexpected error occurred. Please try again.").toList))

/-- An HTTP error response produced by the API layer. -/
structure HTTPExcResp where
  status : Nat
  detail : List Char

/-- Model of the endpoint `send_chat_message` (src/backend/src/api/chat.py
lines 104-144): a `ValueError` maps to 400, a `PermissionError` to 403, and
every other exception to a 500 response with a fixed detail string; a
successful service call returns its response unchanged. -/
def send_chat_message (env : ChatEnv) : Except HTTPExcResp ChatResponse :=
  match process_chat_request env with
  | Except.ok r => Except.ok r
  | Except.error e =>
    if e.isValueError then Except.error { status := 400, detail := e.msg }
    else if e.isPermissionError then Except.error { status := 403, detail := e.msg }
    else
      Except.error
        { status := 500,
          detail :=
            ("Sorry, I encountered an error processing your message. Please try again.").toList }

/-- Model of `ConversationService.get_conversation_history` (source lines
134-195) applied to the chronologically ordered message rows of a
conversation: the query `ORDER BY created_at ASC LIMIT limit` returns the
chronologically first `limit` rows, i.e. the oldest ones. -/
def get_conversation_history {α : Type} (stored : List α) (limit : Nat) : List α :=
  stored.take limit

/-- Model of the slice `conversation_history[-10:]` taken by
`process_message` (source line 150): the last ten entries of the supplied
history (all of them when fewer). -/
def recentHistoryWindow {α : Type} (history : List α) : List α :=
  history.drop (history.length - 10)

/-- The prior-message list that actually reaches the provider for one request:
`ChatService.process_chat_request` fetches the history with `limit=50` and
`process_message` keeps the last ten entries of that list. -/
def providerHistory {α : Type} (stored : List α) : List α :=
  recentHistoryWindow (get_conversation_history stored 50)

/-- A parameter entry of a generated well-formed call block: filler before the
`<parameter=` tag, the parameter name, and the parameter value. -/
structure GParam where
  pad : List Char
  pname : List Char
  pval : List Char

/-- A generated `<tool_call>` block of the fallback grammar (§6 of the spec):
either a call block with a function tag and a parameter list (with filler
around the tags), or a block whose interior carries no resolvable function
tag. -/
inductive GBlock where
  | call (pad0 : List Char) (fname : List Char) (ps : List GParam)
      (padEnd padZ : List Char) : GBlock
  | junkBlock (j : List Char) : GBlock

/-- Rendering of one parameter: `PAD<parameter=NAME>VALUE</parameter>`. -/
def renderParam (p : GParam) : List Char :=
  p.pad ++ paramTagL ++ p.pname ++ '>' :: (p.pval ++ closeParamTagL)

/-- Rendering of the parameter list of a call block. -/
def renderParams : List GParam → List Char
  | [] => []
  | p :: ps => renderParam p ++ renderParams ps

/-- The interior of a generated block, i.e. the text between `<tool_call>` and
`</tool_call>`. -/
def blockInner : GBlock → List Char
  | GBlock.call pad0 fname ps padEnd padZ =>
    pad0 ++ funcTagL ++ fname ++ '>' :: (renderParams ps ++ padEnd ++ closeFuncTagL ++ padZ)
  | GBlock.junkBlock j => j

/-- Rendering of a generated block. -/
def renderBlock (b : GBlock) : List Char :=
  openTagL ++ (blockInner b ++ closeTagL)

/-- Rendering of a full fallback-mode text: interleaved filler and blocks,
followed by trailing filler. -/
def renderText : List (List Char × GBlock) → List Char → List Char
  | [], tail => tail
  | (j, b) :: rest, tail => j ++ (renderBlock b ++ renderText rest tail)

/-- Filler freedom: the text contains no `<` character, so no tag of the
grammar can begin inside it. -/
def ltFreeB (s : List Char) : Bool :=
  s.all (fun c => c ≠ '<')

/-- A usable tag name: non-empty and free of the tag delimiters `<` and `>`. -/
def nameOkB (s : List Char) : Bool :=
  s.isEmpty = false && s.all (fun c => c ≠ '<' && c ≠ '>')

/-- Well-formedness of a generated parameter. -/
def goodParamB (p : GParam) : Bool :=
  ltFreeB p.pad && nameOkB p.pname && ltFreeB p.pval

/-- Well-formedness of a generated block. -/
def goodBlockB : GBlock → Bool
  | GBlock.call pad0 fname ps padEnd padZ =>
    ltFreeB pad0 && nameOkB fname && ps.all goodParamB && ltFreeB padEnd && ltFreeB padZ
  | GBlock.junkBlock j => ltFreeB j

/-- Well-formedness of a generated text: every filler piece is tag-free and
every block is well formed. -/
def goodItemsB (items : List (List Char × GBlock)) : Bool :=
  items.all (fun ib => ltFreeB ib.1 && goodBlockB ib.2)

/-- Is the generated block a call block (it carries a resolvable name)? -/
def isCallB : GBlock → Bool
  | GBlock.call _ _ _ _ _ => true
  | GBlock.junkBlock _ => false

/-- The argument dict the extractor is expected to build for a generated
parameter list (stated from the spec for comparison with the extractor). -/
def expectedArgs (ps : List GParam) : List (List Char × ArgValue) :=
  ps.foldl
    (fun m p => dictInsert (stripSpaces p.pname) (interpretValue (stripSpaces p.pval)) m)
    []

/-- The extracted-call list the spec predicts for a generated text: one call
per call block, in source order, with stripped names; junk blocks dropped
(stated from the spec for comparison with the extractor). -/
def expectedCalls (items : List (List Char × GBlock)) : List ExtractedToolCall :=
  items.filterMap
    (fun ib =>
      match ib.2 with
      | GBlock.call _ fname ps _ _ =>
        some { name := stripSpaces fname, arguments := expectedArgs ps }
      | GBlock.junkBlock _ => none)

/-- The filler text remaining after all complete spans of a generated text are
removed. -/
def junkConcat (items : List (List Char × GBlock)) (tail : List Char) : List Char :=
  match items with
  | [] => tail
  | (j, _) :: rest => j ++ junkConcat rest tail

/-- The visible message the zero-recoverable-calls path produces for a
generated all-junk text (source lines 329-339). -/
def visibleOf (items : List (List Char × GBlock)) (tail : List Char) : List Char :=
  if (stripSpaces (junkConcat items tail)).isEmpty then
    ("I\x27m working on that for you.").toList
  else stripSpaces (junkConcat items tail)

/-- A segment through which a scan for `pat` passes without matching: scanning
any extension of the segment finds exactly the matches of the extension,
shifted by the segment. -/
def SkipSeg (pat seg : List Char) : Prop :=
  ∀ b, findSplit pat (seg ++ b) =
    Option.map (fun pr => (seg ++ pr.1, pr.2)) (findSplit pat b)

theorem isPrefixOf_self_append (p b : List Char) :
    List.isPrefixOf p (p ++ b) = true := by
  induction p with
  | nil => simp [List.isPrefixOf]
  | cons c cs ih => simp [List.isPrefixOf, ih]

theorem eq_append_drop_of_isPrefixOf (p : List Char) :
    ∀ s : List Char, List.isPrefixOf p s = true → s = p ++ s.drop p.length := by
  induction p with
  | nil => intro s _; simp
  | cons c cs ih =>
    intro s h
    cases s with
    | nil => simp [List.isPrefixOf] at h
    | cons d ds =>
      simp only [List.isPrefixOf, Bool.and_eq_true, beq_iff_eq] at h
      obtain ⟨rfl, h2⟩ := h
      simpa using ih ds h2

theorem findSplit_head (pat b : List Char) :
    findSplit pat (pat ++ b) = some ([], b) := by
  cases hp : pat ++ b with
  | nil =>
    have h1 : pat = [] := by
      cases pat with
      | nil => rfl
      | cons c cs => simp at hp
    have h2 : b = [] := by
      cases b with
      | nil => rfl
      | cons c cs => subst h1; simp at hp
    subst h1; subst h2
    simp [findSplit, List.isPrefixOf]
  | cons c rest =>
    rw [← hp]
    have hpre : List.isPrefixOf pat (pat ++ b) = true := isPrefixOf_self_append pat b
    rw [hp] at hpre ⊢
    rw [findSplit, if_pos hpre, ← hp, List.drop_left]

theorem findSplit_some_decompose (pat : List Char) :
    ∀ s pre post, findSplit pat s = some (pre, post) → s = pre ++ pat ++ post := by
  intro s
  induction s with
  | nil =>
    intro pre post h
    rw [findSplit] at h
    by_cases hp : List.isPrefixOf pat ([] : List Char) = true
    · have hpe : pat = [] := by
        cases pat with
        | nil => rfl
        | cons c cs => simp [List.isPrefixOf] at hp
      rw [if_pos hp] at h
      obtain ⟨rfl, rfl⟩ := by simpa using h
      simp [hpe]
    · rw [if_neg hp] at h; exact absurd h (by simp)
  | cons c rest ih =>
    intro pre post h
    rw [findSplit] at h
    by_cases hp : List.isPrefixOf pat (c :: rest) = true
    · rw [if_pos hp] at h
      obtain ⟨rfl, rfl⟩ := by simpa using h
      simpa using (eq_append_drop_of_isPrefixOf pat (c :: rest) hp)
    · rw [if_neg hp] at h
      cases hfs : findSplit pat rest with
      | none => rw [hfs] at h; exact absurd h (by simp)
      | some pr =>
        rw [hfs] at h
        obtain ⟨rfl, rfl⟩ := by simpa using h.symm
        have := ih pr.1 pr.2 (by rw [hfs])
        simp [this]

theorem findSplit_some_length (pat s pre post : List Char)
    (hpat : pat ≠ []) (h : findSplit pat s = some (pre, post)) :
    post.length < s.length := by
  have hd := findSplit_some_decompose pat s pre post h
  have : s.length = pre.length + pat.length + post.length := by
    rw [hd]; simp [List.length_append]; omega
  have hpl : 0 < pat.length := List.length_pos.mpr hpat
  omega

theorem skipSeg_nil (pat : List Char) : SkipSeg pat [] := by
  intro b
  cases h : findSplit pat b <;> simp [h]

theorem skipSeg_append {pat x y : List Char}
    (hx : SkipSeg pat x) (hy : SkipSeg pat y) : SkipSeg pat (x ++ y) := by
  intro b
  rw [List.append_assoc, hx (y ++ b), hy b]
  cases findSplit pat b <;> simp

theorem skipSeg_cons {pat : List Char} {c : Char} {t : List Char}
    (hm : ∀ b, List.isPrefixOf pat (c :: (t ++ b)) = false)
    (ht : SkipSeg pat t) : SkipSeg pat (c :: t) := by
  intro b
  show findSplit pat (c :: (t ++ b)) = _
  rw [findSplit, hm b]
  simp only [Bool.false_eq_true, if_false]
  rw [ht b]
  cases findSplit pat b <;> simp

theorem skipSeg_ltFree {pat : List Char} {pt : List Char} {x : List Char}
    (hp : pat = '<' :: pt) (hx : ltFreeB x = true) : SkipSeg pat x := by
  induction x with
  | nil => exact skipSeg_nil pat
  | cons c cs ih =>
    simp only [ltFreeB, List.all_cons, Bool.and_eq_true, decide_eq_true_eq] at hx
    refine skipSeg_cons ?_ (ih ?_)
    · intro b
      subst hp
      simp only [List.isPrefixOf, Bool.and_eq_false_iff]
      left
      simpa using fun h => hx.1 h.symm
    · simpa [ltFreeB] using hx.2

theorem findSplit_nil_of_ne {pat : List Char} (h : pat ≠ []) :
    findSplit pat [] = none := by
  rw [findSplit]
  have : List.isPrefixOf pat ([] : List Char) = false := by
    cases pat with
    | nil => exact absurd rfl h
    | cons c cs => simp [List.isPrefixOf]
  simp [this]

theorem findSplit_none_of_skipSeg {pat x : List Char}
    (hpat : pat ≠ []) (hx : SkipSeg pat x) : findSplit pat x = none := by
  have := hx []
  rw [List.append_nil] at this
  rw [this, findSplit_nil_of_ne hpat]
  rfl

theorem ltFreeB_append {x y : List Char}
    (hx : ltFreeB x = true) (hy : ltFreeB y = true) : ltFreeB (x ++ y) = true := by
  simp only [ltFreeB, List.all_append, Bool.and_eq_true]
  exact ⟨hx, hy⟩

theorem ltFreeB_of_nameOkB {s : List Char} (h : nameOkB s = true) : ltFreeB s = true := by
  simp only [nameOkB, Bool.and_eq_true, List.all_eq_true] at h
  simp only [ltFreeB, List.all_eq_true]
  intro c hc
  exact (h.2 c hc).1

theorem skipSeg_closeTag_funcTag : SkipSeg closeTagL funcTagL := by
  rw [show funcTagL = '<' :: ['f', 'u', 'n', 'c', 't', 'i', 'o', 'n', '='] from rfl]
  refine skipSeg_cons (fun b => ?_) (skipSeg_ltFree rfl (by decide))
  simp [closeTagL, List.isPrefixOf]

theorem skipSeg_closeTag_paramTag : SkipSeg closeTagL paramTagL := by
  rw [show paramTagL = '<' :: ['p', 'a', 'r', 'a', 'm', 'e', 't', 'e', 'r', '='] from rfl]
  refine skipSeg_cons (fun b => ?_) (skipSeg_ltFree rfl (by decide))
  simp [closeTagL, List.isPrefixOf]

theorem skipSeg_closeTag_closeParamTag : SkipSeg closeTagL closeParamTagL := by
  rw [show closeParamTagL = '<' :: ['/', 'p', 'a', 'r', 'a', 'm', 'e', 't', 'e', 'r', '>'] from rfl]
  refine skipSeg_cons (fun b => ?_) (skipSeg_ltFree rfl (by decide))
  simp [closeTagL, List.isPrefixOf]

theorem skipSeg_closeTag_closeFuncTag : SkipSeg closeTagL closeFuncTagL := by
  rw [show closeFuncTagL = '<' :: ['/', 'f', 'u', 'n', 'c', 't', 'i', 'o', 'n', '>'] from rfl]
  refine skipSeg_cons (fun b => ?_) (skipSeg_ltFree rfl (by decide))
  simp [closeTagL, List.isPrefixOf]

theorem skipSeg_paramTag_funcTag : SkipSeg paramTagL funcTagL := by
  rw [show funcTagL = '<' :: ['f', 'u', 'n', 'c', 't', 'i', 'o', 'n', '='] from rfl]
  refine skipSeg_cons (fun b => ?_) (skipSeg_ltFree rfl (by decide))
  simp [paramTagL, List.isPrefixOf]

theorem skipSeg_paramTag_closeFuncTag : SkipSeg paramTagL closeFuncTagL := by
  rw [show closeFuncTagL = '<' :: ['/', 'f', 'u', 'n', 'c', 't', 'i', 'o', 'n', '>'] from rfl]
  refine skipSeg_cons (fun b => ?_) (skipSeg_ltFree rfl (by decide))
  simp [paramTagL, List.isPrefixOf]


theorem extractBlocksF_congr :
    ∀ (f1 f2 : Nat) (s : List Char), s.length < f1 → s.length < f2 →
      extractBlocksF f1 s = extractBlocksF f2 s := by
  intro f1
  induction f1 with
  | zero => intro f2 s h1 _; exact absurd h1 (by omega)
  | succ n ih =>
    intro f2 s h1 h2
    cases f2 with
    | zero => exact absurd h2 (by omega)
    | succ m =>
      cases ho : findSplit openTagL s with
      | none => simp only [extractBlocksF, ho]
      | some pr =>
        obtain ⟨pre, a1⟩ := pr
        cases hc : findSplit closeTagL a1 with
        | none => simp only [extractBlocksF, ho, hc]
        | some pr2 =>
          obtain ⟨inner, a2⟩ := pr2
          have l1 : a1.length < s.length := findSplit_some_length _ _ _ _ (by decide) ho
          have l2 : a2.length < a1.length := findSplit_some_length _ _ _ _ (by decide) hc
          simp only [extractBlocksF, ho, hc]
          rw [ih m a2 (by omega) (by omega)]

theorem extractBlocks_eq (s : List Char) :
    extractBlocks s =
      match findSplit openTagL s with
      | none => []
      | some pr =>
        match findSplit closeTagL pr.2 with
        | none => []
        | some pr2 => pr2.1 :: extractBlocks pr2.2 := by
  show extractBlocksF (s.length + 1) s = _
  cases ho : findSplit openTagL s with
  | none => simp only [extractBlocksF, ho]
  | some pr =>
    obtain ⟨pre, a1⟩ := pr
    cases hc : findSplit closeTagL a1 with
    | none => simp only [extractBlocksF, ho, hc]
    | some pr2 =>
      obtain ⟨inner, a2⟩ := pr2
      have l1 : a1.length < s.length := findSplit_some_length _ _ _ _ (by decide) ho
      have l2 : a2.length < a1.length := findSplit_some_length _ _ _ _ (by decide) hc
      simp only [extractBlocksF, ho, hc]
      rw [extractBlocksF_congr s.length (a2.length + 1) a2 (by omega) (by omega)]
      rfl

theorem extractFunctionNameF_congr :
    ∀ (f1 f2 : Nat) (s : List Char), s.length < f1 → s.length < f2 →
      extractFunctionNameF f1 s = extractFunctionNameF f2 s := by
  intro f1
  induction f1 with
  | zero => intro f2 s h1 _; exact absurd h1 (by omega)
  | succ n ih =>
    intro f2 s h1 h2
    cases f2 with
    | zero => exact absurd h2 (by omega)
    | succ m =>
      cases ho : findSplit funcTagL s with
      | none => simp only [extractFunctionNameF, ho]
      | some pr =>
        obtain ⟨pre, rest⟩ := pr
        have l1 : rest.length < s.length := findSplit_some_length _ _ _ _ (by decide) ho
        simp only [extractFunctionNameF, ho]
        by_cases hcond :
            (rest.takeWhile (fun c => c ≠ '>')).isEmpty = false ∧
              (rest.takeWhile (fun c => c ≠ '>')).length < rest.length
        · simp only [if_pos hcond]
        · simp only [if_neg hcond]
          exact ih m rest (by omega) (by omega)

theorem extractFunctionName_eq (s : List Char) :
    extractFunctionName s =
      match findSplit funcTagL s with
      | none => none
      | some pr =>
        if (pr.2.takeWhile (fun c => c ≠ '>')).isEmpty = false ∧
            (pr.2.takeWhile (fun c => c ≠ '>')).length < pr.2.length then
          some (pr.2.takeWhile (fun c => c ≠ '>'))
        else extractFunctionName pr.2 := by
  show extractFunctionNameF (s.length + 1) s = _
  cases ho : findSplit funcTagL s with
  | none => simp only [extractFunctionNameF, ho]
  | some pr =>
    obtain ⟨pre, rest⟩ := pr
    have l1 : rest.length < s.length := findSplit_some_length _ _ _ _ (by decide) ho
    simp only [extractFunctionNameF, ho]
    by_cases hcond :
        (rest.takeWhile (fun c => c ≠ '>')).isEmpty = false ∧
          (rest.takeWhile (fun c => c ≠ '>')).length < rest.length
    · simp only [if_pos hcond]
    · simp only [if_neg hcond]
      exact extractFunctionNameF_congr s.length (rest.length + 1) rest (by omega) (by omega)

theorem extractParamsF_congr :
    ∀ (f1 f2 : Nat) (s : List Char), s.length < f1 → s.length < f2 →
      extractParamsF f1 s = extractParamsF f2 s := by
  intro f1
  induction f1 with
  | zero => intro f2 s h1 _; exact absurd h1 (by omega)
  | succ n ih =>
    intro f2 s h1 h2
    cases f2 with
    | zero => exact absurd h2 (by omega)
    | succ m =>
      cases ho : findSplit paramTagL s with
      | none => simp only [extractParamsF, ho]
      | some pr =>
        obtain ⟨pre, rest⟩ := pr
        have l1 : rest.length < s.length := findSplit_some_length _ _ _ _ (by decide) ho
        simp only [extractParamsF, ho]
        by_cases hcond :
            (rest.takeWhile (fun c => c ≠ '>')).isEmpty = false ∧
              (rest.takeWhile (fun c => c ≠ '>')).length < rest.length
        · simp only [if_pos hcond]
          cases hc :
              findSplit closeParamTagL
                (rest.drop ((rest.takeWhile (fun c => c ≠ '>')).length + 1)) with
          | none =>
            simp only [hc]
            exact ih m rest (by omega) (by omega)
          | some pr2 =>
            obtain ⟨vraw, after2⟩ := pr2
            have l2 :
                after2.length <
                  (rest.drop ((rest.takeWhile (fun c => c ≠ '>')).length + 1)).length :=
              findSplit_some_length _ _ _ _ (by decide) hc
            have l3 :
                (rest.drop ((rest.takeWhile (fun c => c ≠ '>')).length + 1)).length ≤
                  rest.length := by
              simp [List.length_drop]
            simp only [hc]
            rw [ih m after2 (by omega) (by omega)]
        · simp only [if_neg hcond]
          exact ih m rest (by omega) (by omega)

theorem extractParams_eq (s : List Char) :
    extractParams s =
      match findSplit paramTagL s with
      | none => []
      | some pr =>
        if (pr.2.takeWhile (fun c => c ≠ '>')).isEmpty = false ∧
            (pr.2.takeWhile (fun c => c ≠ '>')).length < pr.2.length then
          match
            findSplit closeParamTagL
              (pr.2.drop ((pr.2.takeWhile (fun c => c ≠ '>')).length + 1)) with
          | none => extractParams pr.2
          | some pr2 => (pr.2.takeWhile (fun c => c ≠ '>'), pr2.1) :: extractParams pr2.2
        else extractParams pr.2 := by
  show extractParamsF (s.length + 1) s = _
  cases ho : findSplit paramTagL s with
  | none => simp only [extractParamsF, ho]
  | some pr =>
    obtain ⟨pre, rest⟩ := pr
    have l1 : rest.length < s.length := findSplit_some_length _ _ _ _ (by decide) ho
    simp only [extractParamsF, ho]
    by_cases hcond :
        (rest.takeWhile (fun c => c ≠ '>')).isEmpty = false ∧
          (rest.takeWhile (fun c => c ≠ '>')).length < rest.length
    · simp only [if_pos hcond]
      cases hc :
          findSplit closeParamTagL
            (rest.drop ((rest.takeWhile (fun c => c ≠ '>')).length + 1)) with
      | none =>
        simp only [hc]
        exact extractParamsF_congr s.length (rest.length + 1) rest (by omega) (by omega)
      | some pr2 =>
        obtain ⟨vraw, after2⟩ := pr2
        have l2 :
            after2.length <
              (rest.drop ((rest.takeWhile (fun c => c ≠ '>')).length + 1)).length :=
          findSplit_some_length _ _ _ _ (by decide) hc
        have l3 :
            (rest.drop ((rest.takeWhile (fun c => c ≠ '>')).length + 1)).length ≤
              rest.length := by
          simp [List.length_drop]
        simp only [hc]
        rw [extractParamsF_congr s.length (after2.length + 1) after2 (by omega) (by omega)]
        rfl
    · simp only [if_neg hcond]
      exact extractParamsF_congr s.length (rest.length + 1) rest (by omega) (by omega)

theorem subSpansF_congr :
    ∀ (f1 f2 : Nat) (s : List Char), s.length < f1 → s.length < f2 →
      subSpansF f1 s = subSpansF f2 s := by
  intro f1
  induction f1 with
  | zero => intro f2 s h1 _; exact absurd h1 (by omega)
  | succ n ih =>
    intro f2 s h1 h2
    cases f2 with
    | zero => exact absurd h2 (by omega)
    | succ m =>
      cases ho : findSplit openTagL s with
      | none => simp only [subSpansF, ho]
      | some pr =>
        obtain ⟨pre, a1⟩ := pr
        cases hc : findSplit closeTagL a1 with
        | none => simp only [subSpansF, ho, hc]
        | some pr2 =>
          obtain ⟨inner, a2⟩ := pr2
          have l1 : a1.length < s.length := findSplit_some_length _ _ _ _ (by decide) ho
          have l2 : a2.length < a1.length := findSplit_some_length _ _ _ _ (by decide) hc
          simp only [subSpansF, ho, hc]
          rw [ih m a2 (by omega) (by omega)]

theorem subSpans_eq (s : List Char) :
    subSpans s =
      match findSplit openTagL s with
      | none => s
      | some pr =>
        match findSplit closeTagL pr.2 with
        | none => s
        | some pr2 => pr.1 ++ subSpans pr2.2 := by
  show subSpansF (s.length + 1) s = _
  cases ho : findSplit openTagL s with
  | none => simp only [subSpansF, ho]
  | some pr =>
    obtain ⟨pre, a1⟩ := pr
    cases hc : findSplit closeTagL a1 with
    | none => simp only [subSpansF, ho, hc]
    | some pr2 =>
      obtain ⟨inner, a2⟩ := pr2
      have l1 : a1.length < s.length := findSplit_some_length _ _ _ _ (by decide) ho
      have l2 : a2.length < a1.length := findSplit_some_length _ _ _ _ (by decide) hc
      simp only [subSpansF, ho, hc]
      rw [subSpansF_congr s.length (a2.length + 1) a2 (by omega) (by omega)]
      rfl

theorem takeWhile_append_cons {p : Char → Bool} :
    ∀ (a : List Char) (c : Char) (y : List Char), (∀ x ∈ a, p x = true) → p c = false →
      List.takeWhile p (a ++ c :: y) = a := by
  intro a
  induction a with
  | nil =>
    intro c y _ hc
    simp [List.takeWhile, hc]
  | cons d ds ih =>
    intro c y ha hc
    have hd : p d = true := ha d (by simp)
    have ih2 := ih c y (fun x hx => ha x (by simp [hx])) hc
    simp [List.takeWhile_cons, hd, ih2]

theorem drop_append_cons (a : List Char) (c : Char) (y : List Char) :
    (a ++ c :: y).drop (a.length + 1) = y := by
  have : a ++ c :: y = (a ++ [c]) ++ y := by simp
  rw [this]
  have hl : a.length + 1 = (a ++ [c]).length := by simp
  rw [hl, List.drop_left]

theorem extractBlocks_skipSeg {x : List Char} (hx : SkipSeg openTagL x) (b : List Char) :
    extractBlocks (x ++ b) = extractBlocks b := by
  rw [extractBlocks_eq, extractBlocks_eq b, hx b]
  cases hb : findSplit openTagL b with
  | none => rfl
  | some pr => simp

theorem extractBlocks_none {x : List Char} (hx : SkipSeg openTagL x) :
    extractBlocks x = [] := by
  rw [extractBlocks_eq, findSplit_none_of_skipSeg (by decide) hx]

theorem extractBlocks_block {inner rest : List Char} (hinner : SkipSeg closeTagL inner) :
    extractBlocks (openTagL ++ (inner ++ (closeTagL ++ rest))) =
      inner :: extractBlocks rest := by
  rw [extractBlocks_eq, findSplit_head]
  show (match findSplit closeTagL (inner ++ (closeTagL ++ rest)) with
        | none => []
        | some pr2 => pr2.1 :: extractBlocks pr2.2) = inner :: extractBlocks rest
  rw [hinner (closeTagL ++ rest), findSplit_head]
  simp

theorem subSpans_skipSeg {x : List Char} (hx : SkipSeg openTagL x) (b : List Char) :
    subSpans (x ++ b) = x ++ subSpans b := by
  rw [subSpans_eq, subSpans_eq b, hx b]
  cases hb : findSplit openTagL b with
  | none => rfl
  | some pr =>
    cases hc : findSplit closeTagL pr.2 with
    | none => simp [hc]
    | some pr2 => simp [hc]

theorem subSpans_none {x : List Char} (hx : SkipSeg openTagL x) :
    subSpans x = x := by
  rw [subSpans_eq, findSplit_none_of_skipSeg (by decide) hx]

theorem subSpans_block {inner rest : List Char} (hinner : SkipSeg closeTagL inner) :
    subSpans (openTagL ++ (inner ++ (closeTagL ++ rest))) = subSpans rest := by
  rw [subSpans_eq, findSplit_head]
  show (match findSplit closeTagL (inner ++ (closeTagL ++ rest)) with
        | none => openTagL ++ (inner ++ (closeTagL ++ rest))
        | some pr2 => ([] : List Char) ++ subSpans pr2.2) = subSpans rest
  rw [hinner (closeTagL ++ rest), findSplit_head]
  simp

theorem extractFunctionName_skipSeg {x : List Char} (hx : SkipSeg funcTagL x)
    (b : List Char) : extractFunctionName (x ++ b) = extractFunctionName b := by
  rw [extractFunctionName_eq, extractFunctionName_eq b, hx b]
  cases hb : findSplit funcTagL b with
  | none => rfl
  | some pr => simp

theorem extractFunctionName_none {x : List Char} (hx : SkipSeg funcTagL x) :
    extractFunctionName x = none := by
  rw [extractFunctionName_eq, findSplit_none_of_skipSeg (by decide) hx]

theorem extractParams_skipSeg {x : List Char} (hx : SkipSeg paramTagL x)
    (b : List Char) : extractParams (x ++ b) = extractParams b := by
  rw [extractParams_eq, extractParams_eq b, hx b]
  cases hb : findSplit paramTagL b with
  | none => rfl
  | some pr => simp

theorem extractParams_none {x : List Char} (hx : SkipSeg paramTagL x) :
    extractParams x = [] := by
  rw [extractParams_eq, findSplit_none_of_skipSeg (by decide) hx]

theorem ltFreeB_cons {c : Char} {s : List Char}
    (hc : c ≠ '<') (hs : ltFreeB s = true) : ltFreeB (c :: s) = true := by
  simp only [ltFreeB, List.all_cons, Bool.and_eq_true, decide_eq_true_eq]
  exact ⟨hc, by simpa [ltFreeB] using hs⟩

theorem goodParamB_parts {p : GParam} (h : goodParamB p = true) :
    ltFreeB p.pad = true ∧ nameOkB p.pname = true ∧ ltFreeB p.pval = true := by
  simp only [goodParamB, Bool.and_eq_true] at h
  exact ⟨h.1.1, h.1.2, h.2⟩

theorem skipSeg_closeTag_renderParam {p : GParam} (hp : goodParamB p = true) :
    SkipSeg closeTagL (renderParam p) := by
  obtain ⟨hpad, hn, hv⟩ := goodParamB_parts hp
  have hmid : ltFreeB (p.pname ++ '>' :: p.pval) = true :=
    ltFreeB_append (ltFreeB_of_nameOkB hn) (ltFreeB_cons (by decide) hv)
  have hre : renderParam p =
      p.pad ++ (paramTagL ++ ((p.pname ++ '>' :: p.pval) ++ closeParamTagL)) := by
    simp [renderParam]
  rw [hre]
  exact skipSeg_append (skipSeg_ltFree rfl hpad)
    (skipSeg_append skipSeg_closeTag_paramTag
      (skipSeg_append (skipSeg_ltFree rfl hmid) skipSeg_closeTag_closeParamTag))

theorem skipSeg_closeTag_renderParams {ps : List GParam}
    (hps : ps.all goodParamB = true) : SkipSeg closeTagL (renderParams ps) := by
  induction ps with
  | nil => exact skipSeg_nil _
  | cons p ps ih =>
    simp only [List.all_cons, Bool.and_eq_true] at hps
    exact skipSeg_append (skipSeg_closeTag_renderParam hps.1) (ih hps.2)

theorem skipSeg_closeTag_blockInner {b : GBlock} (hb : goodBlockB b = true) :
    SkipSeg closeTagL (blockInner b) := by
  cases b with
  | junkBlock j => exact skipSeg_ltFree rfl (by simpa [goodBlockB] using hb)
  | call pad0 fname ps padEnd padZ =>
    simp only [goodBlockB, Bool.and_eq_true] at hb
    obtain ⟨⟨⟨⟨h0, hf⟩, hps⟩, hE⟩, hZ⟩ := hb
    have hre : blockInner (GBlock.call pad0 fname ps padEnd padZ) =
        pad0 ++ (funcTagL ++ ((fname ++ ['>']) ++
          (renderParams ps ++ (padEnd ++ (closeFuncTagL ++ padZ))))) := by
      simp [blockInner]
    rw [hre]
    refine skipSeg_append (skipSeg_ltFree rfl h0) ?_
    refine skipSeg_append skipSeg_closeTag_funcTag ?_
    refine skipSeg_append
      (skipSeg_ltFree rfl (ltFreeB_append (ltFreeB_of_nameOkB hf) (by decide))) ?_
    refine skipSeg_append (skipSeg_closeTag_renderParams hps) ?_
    refine skipSeg_append (skipSeg_ltFree rfl hE) ?_
    exact skipSeg_append skipSeg_closeTag_closeFuncTag (skipSeg_ltFree rfl hZ)


theorem goodItemsB_cons {j : List Char} {b : GBlock} {rest : List (List Char × GBlock)}
    (h : goodItemsB ((j, b) :: rest) = true) :
    ltFreeB j = true ∧ goodBlockB b = true ∧ goodItemsB rest = true := by
  simp only [goodItemsB, List.all_cons, Bool.and_eq_true] at h
  exact ⟨h.1.1, h.1.2, h.2⟩

theorem extractBlocks_renderText :
    ∀ (items : List (List Char × GBlock)) (tail : List Char),
      goodItemsB items = true → ltFreeB tail = true →
      extractBlocks (renderText items tail) = items.map (fun ib => blockInner ib.2) := by
  intro items
  induction items with
  | nil =>
    intro tail _ ht
    exact extractBlocks_none (skipSeg_ltFree rfl ht)
  | cons ib rest ih =>
    intro tail hg ht
    obtain ⟨j, b⟩ := ib
    obtain ⟨hj, hb, hrest⟩ := goodItemsB_cons hg
    show extractBlocks (j ++ (renderBlock b ++ renderText rest tail)) = _
    rw [extractBlocks_skipSeg (skipSeg_ltFree rfl hj)]
    have hre : renderBlock b ++ renderText rest tail =
        openTagL ++ (blockInner b ++ (closeTagL ++ renderText rest tail)) := by
      simp [renderBlock]
    rw [hre, extractBlocks_block (skipSeg_closeTag_blockInner hb)]
    rw [ih tail hrest ht]
    rfl

theorem subSpans_renderText :
    ∀ (items : List (List Char × GBlock)) (tail : List Char),
      goodItemsB items = true → ltFreeB tail = true →
      subSpans (renderText items tail) = junkConcat items tail := by
  intro items
  induction items with
  | nil =>
    intro tail _ ht
    exact subSpans_none (skipSeg_ltFree rfl ht)
  | cons ib rest ih =>
    intro tail hg ht
    obtain ⟨j, b⟩ := ib
    obtain ⟨hj, hb, hrest⟩ := goodItemsB_cons hg
    show subSpans (j ++ (renderBlock b ++ renderText rest tail)) = _
    rw [subSpans_skipSeg (skipSeg_ltFree rfl hj)]
    have hre : renderBlock b ++ renderText rest tail =
        openTagL ++ (blockInner b ++ (closeTagL ++ renderText rest tail)) := by
      simp [renderBlock]
    rw [hre, subSpans_block (skipSeg_closeTag_blockInner hb)]
    rw [ih tail hrest ht]
    rfl

theorem goodBlockB_call_parts {pad0 fname : List Char} {ps : List GParam}
    {padEnd padZ : List Char}
    (h : goodBlockB (GBlock.call pad0 fname ps padEnd padZ) = true) :
    ltFreeB pad0 = true ∧ nameOkB fname = true ∧ ps.all goodParamB = true ∧
      ltFreeB padEnd = true ∧ ltFreeB padZ = true := by
  simp only [goodBlockB, Bool.and_eq_true] at h
  exact ⟨h.1.1.1.1, h.1.1.1.2, h.1.1.2, h.1.2, h.2⟩

theorem nameOkB_parts {s : List Char} (h : nameOkB s = true) :
    s.isEmpty = false ∧ ∀ x ∈ s, (x ≠ '<') ∧ (x ≠ '>') := by
  simp only [nameOkB, Bool.and_eq_true, List.all_eq_true, decide_eq_true_eq,
    Bool.and_eq_true] at h
  exact ⟨h.1, fun x hx => by simpa using h.2 x hx⟩

theorem takeWhile_name {fname : List Char} (hf : nameOkB fname = true) (y : List Char) :
    (fname ++ '>' :: y).takeWhile (fun c => c ≠ '>') = fname := by
  refine takeWhile_append_cons fname '>' y ?_ (by simp)
  intro x hx
  simpa using ((nameOkB_parts hf).2 x hx).2


theorem blockInner_call_eq (pad0 fname : List Char) (ps : List GParam)
    (padEnd padZ : List Char) :
    blockInner (GBlock.call pad0 fname ps padEnd padZ) =
      pad0 ++ (funcTagL ++
        (fname ++ '>' :: (renderParams ps ++ (padEnd ++ (closeFuncTagL ++ padZ))))) := by
  simp [blockInner, List.append_assoc]

theorem extractFunctionName_inner_call {pad0 fname : List Char} {ps : List GParam}
    {padEnd padZ : List Char}
    (hb : goodBlockB (GBlock.call pad0 fname ps padEnd padZ) = true) :
    extractFunctionName (blockInner (GBlock.call pad0 fname ps padEnd padZ)) =
      some fname := by
  obtain ⟨h0, hf, hps, hE, hZ⟩ := goodBlockB_call_parts hb
  rw [blockInner_call_eq]
  rw [extractFunctionName_skipSeg (skipSeg_ltFree rfl h0)]
  rw [extractFunctionName_eq, findSplit_head]
  have hnm := takeWhile_name hf (renderParams ps ++ (padEnd ++ (closeFuncTagL ++ padZ)))
  have hcond : fname.isEmpty = false ∧
      fname.length <
        (fname ++ '>' ::
          (renderParams ps ++ (padEnd ++ (closeFuncTagL ++ padZ)))).length := by
    refine ⟨(nameOkB_parts hf).1, ?_⟩
    simp [List.length_append]
  simp only [hnm, hcond, and_self, if_true]

theorem skipSeg_paramTag_callTail {padEnd padZ : List Char}
    (hE : ltFreeB padEnd = true) (hZ : ltFreeB padZ = true) :
    SkipSeg paramTagL (padEnd ++ (closeFuncTagL ++ padZ)) :=
  skipSeg_append (skipSeg_ltFree rfl hE)
    (skipSeg_append skipSeg_paramTag_closeFuncTag (skipSeg_ltFree rfl hZ))

theorem extractParams_renderParams :
    ∀ (ps : List GParam) (T : List Char), ps.all goodParamB = true →
      SkipSeg paramTagL T →
      extractParams (renderParams ps ++ T) = ps.map (fun p => (p.pname, p.pval)) := by
  intro ps
  induction ps with
  | nil =>
    intro T _ hT
    show extractParams (([] : List Char) ++ T) = []
    rw [List.nil_append]
    exact extractParams_none hT
  | cons p ps ih =>
    intro T hps hT
    simp only [List.all_cons, Bool.and_eq_true] at hps
    obtain ⟨hp, hrest⟩ := hps
    obtain ⟨hpad, hn, hv⟩ := goodParamB_parts hp
    have hre : renderParams (p :: ps) ++ T =
        p.pad ++ (paramTagL ++
          (p.pname ++ '>' :: (p.pval ++ (closeParamTagL ++ (renderParams ps ++ T))))) := by
      simp [renderParams, renderParam, List.append_assoc]
    rw [hre, extractParams_skipSeg (skipSeg_ltFree rfl hpad)]
    rw [extractParams_eq, findSplit_head]
    have hnm := takeWhile_name hn (p.pval ++ (closeParamTagL ++ (renderParams ps ++ T)))
    have hcond : p.pname.isEmpty = false ∧
        p.pname.length <
          (p.pname ++ '>' :: (p.pval ++ (closeParamTagL ++ (renderParams ps ++ T)))).length := by
      refine ⟨(nameOkB_parts hn).1, ?_⟩
      simp [List.length_append]
    have hskip : SkipSeg closeParamTagL p.pval := skipSeg_ltFree rfl hv
    simp only [hnm, hcond, and_self, if_true, drop_append_cons,
      hskip (closeParamTagL ++ (renderParams ps ++ T)), findSplit_head]
    simp only [Option.map_some', List.append_nil]
    rw [ih T hrest hT]
    simp

theorem extractParams_inner_call {pad0 fname : List Char} {ps : List GParam}
    {padEnd padZ : List Char}
    (hb : goodBlockB (GBlock.call pad0 fname ps padEnd padZ) = true) :
    extractParams (blockInner (GBlock.call pad0 fname ps padEnd padZ)) =
      ps.map (fun p => (p.pname, p.pval)) := by
  obtain ⟨h0, hf, hps, hE, hZ⟩ := goodBlockB_call_parts hb
  have hre : blockInner (GBlock.call pad0 fname ps padEnd padZ) =
      (pad0 ++ (funcTagL ++ (fname ++ ['>']))) ++
        (renderParams ps ++ (padEnd ++ (closeFuncTagL ++ padZ))) := by
    simp [blockInner, List.append_assoc]
  rw [hre]
  have hpre : SkipSeg paramTagL (pad0 ++ (funcTagL ++ (fname ++ ['>']))) :=
    skipSeg_append (skipSeg_ltFree rfl h0)
      (skipSeg_append skipSeg_paramTag_funcTag
        (skipSeg_ltFree rfl (ltFreeB_append (ltFreeB_of_nameOkB hf) (by decide))))
  rw [extractParams_skipSeg hpre]
  exact extractParams_renderParams ps _ hps (skipSeg_paramTag_callTail hE hZ)

theorem parseBlockCall_inner_call {pad0 fname : List Char} {ps : List GParam}
    {padEnd padZ : List Char}
    (hb : goodBlockB (GBlock.call pad0 fname ps padEnd padZ) = true) :
    parseBlockCall (blockInner (GBlock.call pad0 fname ps padEnd padZ)) =
      some { name := stripSpaces fname, arguments := expectedArgs ps } := by
  simp only [parseBlockCall, extractFunctionName_inner_call hb, extractParams_inner_call hb]
  simp only [Option.some.injEq]
  congr 1
  rw [List.foldl_map]
  rfl

theorem parseBlockCall_junk {j : List Char} (hj : ltFreeB j = true) :
    parseBlockCall (blockInner (GBlock.junkBlock j)) = none := by
  have hskip : SkipSeg funcTagL j := skipSeg_ltFree rfl hj
  rw [show blockInner (GBlock.junkBlock j) = j from rfl]
  simp only [parseBlockCall, extractFunctionName_none hskip]

theorem filterMap_blockInner :
    ∀ items : List (List Char × GBlock), goodItemsB items = true →
      (items.map (fun ib => blockInner ib.2)).filterMap parseBlockCall =
        expectedCalls items := by
  intro items
  induction items with
  | nil => intro _; rfl
  | cons ib rest ih =>
    intro hg
    obtain ⟨j, b⟩ := ib
    obtain ⟨hj, hb, hrest⟩ := goodItemsB_cons hg
    cases b with
    | call pad0 fname ps padEnd padZ =>
      simp only [List.map_cons, List.filterMap_cons, parseBlockCall_inner_call hb,
        expectedCalls, ih hrest]
    | junkBlock jb =>
      have hjb : ltFreeB jb = true := by simpa [goodBlockB] using hb
      simp only [List.map_cons, List.filterMap_cons, parseBlockCall_junk hjb,
        expectedCalls, ih hrest]

theorem parse_xml_renderText (items : List (List Char × GBlock)) (tail : List Char)
    (hg : goodItemsB items = true) (ht : ltFreeB tail = true) :
    parse_xml_tool_calls (renderText items tail) = expectedCalls items := by
  show (extractBlocks (renderText items tail)).filterMap parseBlockCall = _
  rw [extractBlocks_renderText items tail hg ht]
  exact filterMap_blockInner items hg

theorem dispatchXml_filter_map
    (bX : List Char → List (List Char × ArgValue) → ToolOutcome) :
    ∀ calls : List ExtractedToolCall,
      dispatchXml bX calls =
        (calls.filter (fun c => (get_tool_function c.name).isSome)).map (execCall bX) := by
  intro calls
  induction calls with
  | nil => rfl
  | cons c rest ih =>
    by_cases h : (get_tool_function c.name).isSome = true
    · simp [dispatchXml, List.filter_cons, h, ih]
    · simp [dispatchXml, List.filter_cons, h, ih, Bool.eq_false_iff.mpr h]

theorem dispatchStructured_ok_length (bJ : List Char → Json → ToolOutcome) :
    ∀ (scs : List StructuredCall) (d : List ToolCallRecord),
      dispatchStructured bJ scs = Except.ok d → d.length ≤ scs.length := by
  intro scs
  induction scs with
  | nil =>
    intro d h
    simp only [dispatchStructured] at h
    obtain rfl := by simpa using h
    simp
  | cons c rest ih =>
    intro d h
    simp only [dispatchStructured] at h
    cases hj : jsonLoads c.argsRaw with
    | none => simp [hj] at h
    | some args =>
      simp only [hj] at h
      by_cases hr : (get_tool_function c.fname).isSome = true
      · rw [if_pos hr] at h
        cases hrest : dispatchStructured bJ rest with
        | ok d' =>
          rw [hrest] at h
          obtain rfl := by simpa using h.symm
          have := ih d' hrest
          simp [List.length_cons]
          omega
        | error e => rw [hrest] at h; exact absurd h (by simp)
      · rw [if_neg hr] at h
        have := ih d h
        simp [List.length_cons]
        omega

theorem expectedCalls_length :
    ∀ items : List (List Char × GBlock),
      (expectedCalls items).length = (items.filter (fun ib => isCallB ib.2)).length := by
  intro items
  induction items with
  | nil => rfl
  | cons ib rest ih =>
    obtain ⟨j, b⟩ := ib
    cases b with
    | call pad0 fname ps padEnd padZ =>
      simp [expectedCalls, List.filterMap_cons, List.filter_cons, isCallB] at ih ⊢
      exact ih
    | junkBlock jb =>
      simp [expectedCalls, List.filterMap_cons, List.filter_cons, isCallB] at ih ⊢
      exact ih

theorem process_chat_request_error_chatSvc (env : ChatEnv) (e : PyExc)
    (h : process_chat_request env = Except.error e) : e.isChatServiceError = true := by
  unfold process_chat_request at h
  cases hin : processChatRequestTry env with
  | ok r => simp [hin] at h
  | error e0 =>
    simp only [hin] at h
    by_cases h0 : e0.isChatServiceError = true
    · rw [if_pos h0] at h
      obtain rfl := by simpa using h.symm
      exact h0
    · rw [if_neg h0] at h
      obtain rfl := by simpa using h.symm
      rfl

theorem dropWhile_idem (p : Char → Bool) :
    ∀ l : List Char, (l.dropWhile p).dropWhile p = l.dropWhile p := by
  intro l
  induction l with
  | nil => rfl
  | cons c cs ih =>
    by_cases h : p c = true
    · simp [List.dropWhile_cons, h, ih]
    · simp [List.dropWhile_cons, h]

theorem dropWhile_decomp (p : Char → Bool) :
    ∀ l : List Char, ∃ t, l = t ++ l.dropWhile p := by
  intro l
  induction l with
  | nil => exact ⟨[], rfl⟩
  | cons c cs ih =>
    by_cases h : p c = true
    · obtain ⟨t, ht⟩ := ih
      exact ⟨c :: t, by simp [List.dropWhile_cons, h, ← ht]⟩
    · exact ⟨[], by simp [List.dropWhile_cons, h]⟩

theorem dropWhile_eq_self_of_append (p : Char → Bool) (C u : List Char)
    (hA : (C ++ u).dropWhile p = C ++ u) : C.dropWhile p = C := by
  cases C with
  | nil => rfl
  | cons c cs =>
    have hc : p c = false := by
      by_contra hc
      have hc2 : p c = true := by
        cases hpc : p c with
        | true => rfl
        | false => exact absurd hpc hc
      rw [List.cons_append, List.dropWhile_cons, hc2] at hA
      simp only [eq_self_iff_true, if_true] at hA
      have hlen := congrArg List.length hA
      have hle : ((cs ++ u).dropWhile p).length ≤ (cs ++ u).length := by
        clear hlen hA
        induction (cs ++ u) with
        | nil => simp
        | cons d ds ihd =>
          by_cases hd : p d = true
          · rw [List.dropWhile_cons, if_pos hd]
            simp only [List.length_cons]
            omega
          · rw [List.dropWhile_cons, if_neg hd]
      rw [List.length_cons] at hlen
      omega
    simp [List.dropWhile_cons, hc]

theorem stripSpaces_idem (s : List Char) : stripSpaces (stripSpaces s) = stripSpaces s := by
  set p := isSpaceChar with hp
  set A := s.dropWhile p with hA
  set B := A.reverse.dropWhile p with hB
  have hstrip : stripSpaces s = B.reverse := rfl
  have hfix2 : B.dropWhile p = B := by rw [hB]; exact dropWhile_idem p A.reverse
  have hfix1 : B.reverse.dropWhile p = B.reverse := by
    have hAfix : A.dropWhile p = A := dropWhile_idem p s
    obtain ⟨t, ht⟩ := dropWhile_decomp p A.reverse
    have hArev : A = B.reverse ++ t.reverse := by
      have := congrArg List.reverse ht
      simpa [List.reverse_append] using this
    exact dropWhile_eq_self_of_append p B.reverse t.reverse (by rw [← hArev]; exact hAfix)
  show ((B.reverse.dropWhile p).reverse.dropWhile p).reverse = B.reverse
  rw [hfix1, List.reverse_reverse, hfix2]

theorem mem_dropWhile_sub (p : Char → Bool) (l : List Char) (c : Char)
    (hc : c ∈ l.dropWhile p) : c ∈ l := by
  obtain ⟨t, ht⟩ := dropWhile_decomp p l
  rw [ht]
  exact List.mem_append_right t hc

theorem mem_stripSpaces_sub (s : List Char) (c : Char) (hc : c ∈ stripSpaces s) :
    c ∈ s := by
  simp only [stripSpaces, List.mem_reverse] at hc
  have h2 := mem_dropWhile_sub isSpaceChar (s.dropWhile isSpaceChar).reverse c hc
  rw [List.mem_reverse] at h2
  exact mem_dropWhile_sub isSpaceChar s c h2

theorem ltFreeB_stripSpaces {s : List Char} (hs : ltFreeB s = true) :
    ltFreeB (stripSpaces s) = true := by
  simp only [ltFreeB, List.all_eq_true] at hs ⊢
  intro c hc
  exact hs c (mem_stripSpaces_sub s c hc)

theorem ltFreeB_junkConcat :
    ∀ (items : List (List Char × GBlock)) (tail : List Char),
      goodItemsB items = true → ltFreeB tail = true →
      ltFreeB (junkConcat items tail) = true := by
  intro items
  induction items with
  | nil => intro tail _ ht; exact ht
  | cons ib rest ih =>
    intro tail hg ht
    obtain ⟨j, b⟩ := ib
    obtain ⟨hj, _, hrest⟩ := goodItemsB_cons hg
    exact ltFreeB_append hj (ih tail hrest ht)

theorem containsSub_ltFree {pat : List Char} {pt : List Char} {s : List Char}
    (hp : pat = '<' :: pt) (hs : ltFreeB s = true) : containsSub pat s = false := by
  have := findSplit_none_of_skipSeg (by rw [hp]; simp) (skipSeg_ltFree hp hs)
  simp [containsSub, this]

theorem subSpans_of_not_contains {s : List Char}
    (h : containsSub openTagL s = false) : subSpans s = s := by
  rw [subSpans_eq]
  cases hfs : findSplit openTagL s with
  | none => rfl
  | some pr => rw [containsSub, hfs] at h; simp at h

theorem expectedCalls_all_junk :
    ∀ items : List (List Char × GBlock),
      items.all (fun ib => !(isCallB ib.2)) = true → expectedCalls items = [] := by
  intro items
  induction items with
  | nil => intro _; rfl
  | cons ib rest ih =>
    intro h
    obtain ⟨j, b⟩ := ib
    rw [List.all_cons, Bool.and_eq_true] at h
    cases b with
    | call pad0 fname ps padEnd padZ => exact absurd h.1 (by simp [isCallB])
    | junkBlock jb =>
      have hstep : expectedCalls ((j, GBlock.junkBlock jb) :: rest) = expectedCalls rest := by
        rw [expectedCalls, List.filterMap_cons]
        rfl
      rw [hstep]
      exact ih h.2

theorem containsSub_renderText_cons {j : List Char} {b : GBlock}
    {rest : List (List Char × GBlock)} {tail : List Char} (hj : ltFreeB j = true) :
    containsSub openTagL (renderText ((j, b) :: rest) tail) = true := by
  show (findSplit openTagL (j ++ (renderBlock b ++ renderText rest tail))).isSome = true
  have hsk : SkipSeg openTagL j := skipSeg_ltFree rfl hj
  rw [hsk (renderBlock b ++ renderText rest tail)]
  rw [show renderBlock b ++ renderText rest tail =
        openTagL ++ ((blockInner b ++ closeTagL) ++ renderText rest tail) from by
      simp [renderBlock]]
  rw [findSplit_head]
  rfl

theorem renderText_cons_ne_empty {j : List Char} {b : GBlock}
    {rest : List (List Char × GBlock)} {tail : List Char} :
    (renderText ((j, b) :: rest) tail).isEmpty = false := by
  show (j ++ (renderBlock b ++ renderText rest tail)).isEmpty = false
  cases j with
  | nil =>
    cases b with
    | call pad0 fname ps padEnd padZ => rfl
    | junkBlock jb => rfl
  | cons c cs => rfl

theorem extractFunctionNameF_no_gt :
    ∀ (fuel : Nat) (s nm : List Char), extractFunctionNameF fuel s = some nm →
      nm.all (fun ch => ch ≠ '>') = true := by
  intro fuel
  induction fuel with
  | zero => intro s nm h; exact absurd h (by simp [extractFunctionNameF])
  | succ n ih =>
    intro s nm h
    rw [extractFunctionNameF] at h
    cases ho : findSplit funcTagL s with
    | none => simp [ho] at h
    | some pr =>
      simp only [ho] at h
      by_cases hcond :
          (pr.2.takeWhile (fun c => c ≠ '>')).isEmpty = false ∧
            (pr.2.takeWhile (fun c => c ≠ '>')).length < pr.2.length
      · rw [if_pos hcond] at h
        obtain rfl := by simpa using h.symm
        simp only [List.all_eq_true, decide_eq_true_eq]
        intro ch hch
        simpa using List.mem_takeWhile_imp hch
      · rw [if_neg hcond] at h
        exact ih pr.2 nm h

theorem parse_name_no_gt (s : List Char) (c : ExtractedToolCall)
    (hc : c ∈ parse_xml_tool_calls s) : c.name.all (fun ch => ch ≠ '>') = true := by
  have hmem : ∃ block ∈ extractBlocks s, parseBlockCall block = some c := by
    simpa [parse_xml_tool_calls, List.mem_filterMap] using hc
  obtain ⟨block, _, hpb⟩ := hmem
  rw [parseBlockCall] at hpb
  cases hefn : extractFunctionName block with
  | none => rw [hefn] at hpb; exact absurd hpb (by simp)
  | some nm =>
    rw [hefn] at hpb
    have hshape := extractFunctionNameF_no_gt (block.length + 1) block nm hefn
    obtain rfl := by simpa using hpb.symm
    simp only [List.all_eq_true, decide_eq_true_eq] at hshape ⊢
    intro ch hch
    exact hshape ch (mem_stripSpaces_sub nm ch hch)

/-- C1 counterexample: dispatching a single extracted call whose tool name
(`ghost_tool`) is not a key of TOOL_FUNCTIONS yields the empty result list —
the loop body is guarded by `if tool_func:` with no else branch, so no
ToolExecutionResult (in particular no NotFound failure) is appended for the
unknown call. -/
theorem c1_counterexample :
    dispatchXml (fun _ _ => ToolOutcome.ok Json.null)
        [{ name := ("ghost_tool").toList, arguments := [] }] = [] ∧
      get_tool_function (("ghost_tool").toList) = none :=
  ⟨rfl, by decide⟩

/-- C1 (amended): for every extracted tool call whose name is not a key of
TOOL_FUNCTIONS, dispatch does not raise and does not abort the remaining
calls — it executes exactly the registered-named calls, in order — but it
appends no ToolExecutionResult at all for the unknown call: the call is
silently skipped, rather than yielding a NotFound failure. -/
theorem c1_unknown_tool_silently_skipped
    (bX : List Char → List (List Char × ArgValue) → ToolOutcome)
    (calls : List ExtractedToolCall) :
    dispatchXml bX calls =
      (calls.filter (fun c => (get_tool_function c.name).isSome)).map (execCall bX) :=
  dispatchXml_filter_map bX calls

/-- C3: evaluation of the history pipeline at a failing input.  For a stored
conversation of 51 chronologically ordered messages `0,…,50`, the database
layer (`ORDER BY created_at ASC LIMIT 50`) returns the oldest fifty messages
`0,…,49`, and the agent keeps the last ten of those, so the provider sees
`40,…,49` — the most recent message `50` never reaches the provider, contrary
to the most-recent-N window the specification describes. -/
theorem c3_history_window_failing_input :
    get_conversation_history (List.range 51) 50 = List.range 50 ∧
      providerHistory (List.range 51) = [40, 41, 42, 43, 44, 45, 46, 47, 48, 49] ∧
      50 ∈ List.range 51 ∧ 50 ∉ providerHistory (List.range 51) :=
  ⟨by decide, by decide, by decide, by decide⟩

/-- C6: for every mix of per-call outcomes, dispatch produces at most one
ToolExecutionResult per ExtractedToolCall and the results follow the
extraction order: the XML path yields exactly the registered-named calls in
extraction order (so its length is bounded by the number of calls), and a
successful structured-path dispatch yields at most one record per structured
call. -/
theorem c6_results_bounded_and_ordered
    (bX : List Char → List (List Char × ArgValue) → ToolOutcome)
    (bJ : List Char → Json → ToolOutcome)
    (calls : List ExtractedToolCall) (scs : List StructuredCall)
    (d : List ToolCallRecord) (hd : dispatchStructured bJ scs = Except.ok d) :
    ((dispatchXml bX calls).length ≤ calls.length ∧
      (dispatchXml bX calls).map (fun r => r.tool_name) =
        (calls.filter (fun c => (get_tool_function c.name).isSome)).map
          (fun c => c.name)) ∧
      d.length ≤ scs.length := by
  refine ⟨⟨?_, ?_⟩, dispatchStructured_ok_length bJ scs d hd⟩
  · rw [dispatchXml_filter_map]
    rw [List.length_map]
    exact le_trans (List.length_filter_le _ calls) (le_refl _)
  · rw [dispatchXml_filter_map, List.map_map]
    rfl

/-- C6 witness: at the two extracted calls of Scenario B (both registered) with a
mixed outcome assignment, dispatch yields exactly two results in extraction
order, and an empty structured dispatch yields no results. -/
theorem c6_witness :
    ((dispatchXml
        (fun nm _ => if nm = ("add_task").toList then ToolOutcome.ok Json.null
          else ToolOutcome.exn (("boom").toList))
        [{ name := ("add_task").toList,
           arguments := [(("title").toList, ArgValue.str (("sleep").toList))] },
         { name := ("delete_task").toList,
           arguments := [(("task_id").toList, ArgValue.str (("abc-123").toList))] }]).length ≤ 2 ∧
      (dispatchXml
        (fun nm _ => if nm = ("add_task").toList then ToolOutcome.ok Json.null
          else ToolOutcome.exn (("boom").toList))
        [{ name := ("add_task").toList,
           arguments := [(("title").toList, ArgValue.str (("sleep").toList))] },
         { name := ("delete_task").toList,
           arguments := [(("task_id").toList, ArgValue.str (("abc-123").toList))] }]).map
          (fun r => r.tool_name) =
        [("add_task").toList, ("delete_task").toList]) ∧
      dispatchStructured (fun _ _ => ToolOutcome.ok Json.null) [] =
        Except.ok ([] : List ToolCallRecord) := by
  have h := c6_results_bounded_and_ordered
    (fun nm _ => if nm = ("add_task").toList then ToolOutcome.ok Json.null
      else ToolOutcome.exn (("boom").toList))
    (fun _ _ => ToolOutcome.ok Json.null)
    [{ name := ("add_task").toList,
       arguments := [(("title").toList, ArgValue.str (("sleep").toList))] },
     { name := ("delete_task").toList,
       arguments := [(("task_id").toList, ArgValue.str (("abc-123").toList))] }]
    [] [] rfl
  exact ⟨⟨h.1.1, h.1.2.trans rfl⟩, rfl⟩

/-- C10 counterexample: the input `<tool_call><function= ></function></tool_call>`
is extracted to a single call whose tool name is the empty string — the
whitespace captured by `[^>]+` is removed by `.strip()` — refuting the claim
that every extracted call has a non-empty tool-name string. -/
theorem c10_counterexample :
    parse_xml_tool_calls (("<tool_call><function= ></function></tool_call>").toList) =
        [{ name := [], arguments := [] }] ∧
      (([] : List Char)).isEmpty = true :=
  ⟨rfl, rfl⟩

/-- C10 (amended): extraction is a total deterministic function (it is defined
as a Lean function over the input string), and every extracted call has a
string tool name containing no `>` character — the stripped content of a
resolved function tag — and a string-keyed argument map; the tool name may
however be empty after whitespace stripping. -/
theorem c10_extraction_total_and_shaped (s : List Char) (c : ExtractedToolCall)
    (hc : c ∈ parse_xml_tool_calls s) :
    c.name.all (fun ch => ch ≠ '>') = true :=
  parse_name_no_gt s c hc

/-- C10 witness: the Scenario A input yields the call `list_tasks`, whose name
contains no `>`. -/
theorem c10_witness :
    ((⟨("list_tasks").toList, []⟩ : ExtractedToolCall)).name.all
        (fun ch => ch ≠ '>') = true :=
  c10_extraction_total_and_shaped
    (("<tool_call><function=list_tasks></function></tool_call>").toList)
    ⟨("list_tasks").toList, []⟩
    (List.mem_singleton.mpr rfl)

/-- C2 counterexample: when the first provider round-trip raises (a transport
timeout), the cycle does not produce an AgentReply at all — `process_message`
wraps the exception into `AgentProcessingError`, `process_chat_request`
converts it into `ChatServiceError`, and the endpoint answers with an HTTP 500
error response, a caller-visible failure instead of a reply. -/
theorem c2_counterexample :
    send_chat_message
        { conv := Except.ok 1,
          history := Except.ok [],
          userIdValid := true,
          msgEnv :=
            { first := FirstOutcome.raised (("ReadTimeout").toList),
              synth := CallOutcome.http 200 [],
              bJ := fun _ _ => ToolOutcome.ok Json.null,
              bX := fun _ _ => ToolOutcome.ok Json.null },
          save := Except.ok () } =
      Except.error
        { status := 500,
          detail :=
            ("Sorry, I encountered an error processing your message. Please try again.").toList } :=
  rfl

/-- C2 (amended): the request cycle never terminates with an unhandled crash:
for every environment it either returns a ChatResponse or answers with a
structured HTTP 500 error response carrying the fixed default detail string.
An exception at any stage is thus caught and converted — but into a
caller-visible error response, not into a reply with default text. -/
theorem c2_reply_or_fixed_500 (env : ChatEnv) :
    (∃ r, send_chat_message env = Except.ok r) ∨
      send_chat_message env =
        Except.error
          { status := 500,
            detail :=
              ("Sorry, I encountered an error processing your message. Please try again.").toList } := by
  cases h : process_chat_request env with
  | ok r =>
    left
    exact ⟨r, by simp [send_chat_message, h]⟩
  | error e =>
    right
    have he := process_chat_request_error_chatSvc env e h
    cases e with
    | chatServiceError m =>
      simp [send_chat_message, h, PyExc.isValueError, PyExc.isPermissionError]
    | valueError m => simp [PyExc.isChatServiceError] at he
    | permissionError m => simp [PyExc.isChatServiceError] at he
    | agentProcessingError m => simp [PyExc.isChatServiceError] at he
    | conversationServiceError m => simp [PyExc.isChatServiceError] at he
    | conversationNotFoundError m => simp [PyExc.isChatServiceError] at he
    | otherError m => simp [PyExc.isChatServiceError] at he

/-- C9 counterexample: a first-turn plain text ` hi ` (no tool markers) is not
returned unchanged — the final cleanup applies `.strip()`, so the reply text
is `hi`. -/
theorem c9_counterexample :
    processMessageCore [] ((" hi ").toList) (CallOutcome.http 200 [])
        (fun _ _ => ToolOutcome.ok Json.null) (fun _ _ => ToolOutcome.ok Json.null) =
      Except.ok { message := ("hi").toList, tool_calls := none } ∧
      ("hi").toList ≠ ((" hi ").toList) :=
  ⟨rfl, by decide⟩

/-- C9 (amended): when the first provider turn supplies no structured calls
and plain text without the `<tool_call>` marker, the cycle returns that text
stripped of surrounding whitespace (with the fixed defaults for empty or
whitespace-only text), an empty tool-result list, and no second round-trip:
the result is the same for every synthesis outcome, including a raising one. -/
theorem c9_plain_text_stripped_no_synthesis (content : List Char)
    (synth : CallOutcome) (bJ : List Char → Json → ToolOutcome)
    (bX : List Char → List (List Char × ArgValue) → ToolOutcome)
    (h : (content.isEmpty = false && containsSub openTagL content) = false) :
    processMessageCore [] content synth bJ bX =
      Except.ok
        { message :=
            if content.isEmpty then ("I\x27m here to help!").toList
            else if (stripSpaces content).isEmpty then ("Done!").toList
            else stripSpaces content,
          tool_calls := none } := by
  by_cases hce : content.isEmpty = true
  · have hc : content = [] := List.isEmpty_iff.mp hce
    subst hc
    rfl
  · have hne : content.isEmpty = false := by
      cases hx : content.isEmpty with
      | true => exact absurd hx hce
      | false => rfl
    have hcs : containsSub openTagL content = false := by
      cases hy : containsSub openTagL content with
      | false => rfl
      | true => simp [hne, hy] at h
    unfold processMessageCore
    rw [if_neg (by simp : ¬(([] : List StructuredCall).isEmpty = false))]
    rw [if_neg (by simp [hcs] :
      ¬((content.isEmpty = false && containsSub openTagL content) = true))]
    rw [if_neg (by simp [hne] : ¬(content.isEmpty = true))]
    rw [if_neg (by simp [hne] : ¬(content.isEmpty = true))]
    unfold finalizeMessage
    rw [subSpans_of_not_contains hcs]
    rfl

/-- C9 witness: plain text `Hello!` is returned as the reply with no tool
results, even when the synthesis transport would raise — the second
round-trip is never consulted. -/
theorem c9_witness :
    ((("Hello!").toList).isEmpty = false &&
        containsSub openTagL (("Hello!").toList)) = false ∧
      processMessageCore [] (("Hello!").toList)
          (CallOutcome.raised (("timeout").toList))
          (fun _ _ => ToolOutcome.ok Json.null)
          (fun _ _ => ToolOutcome.ok Json.null) =
        Except.ok { message := ("Hello!").toList, tool_calls := none } :=
  ⟨by decide,
    c9_plain_text_stripped_no_synthesis (("Hello!").toList)
      (CallOutcome.raised (("timeout").toList))
      (fun _ _ => ToolOutcome.ok Json.null)
      (fun _ _ => ToolOutcome.ok Json.null) (by decide)⟩

/-- C7 (amended): whenever at least one tool was executed on the XML path and
the synthesis round-trip completes with a non-success status, the reply text
equals the fixed fallback string and the tool-result list contains exactly the
records of the executed tools.  (A synthesis transport exception instead
propagates; see the counterexample.) -/
theorem c7_synth_error_fixed_fallback (content : List Char) (st : Nat)
    (txt : List Char) (bJ : List Char → Json → ToolOutcome)
    (bX : List Char → List (List Char × ArgValue) → ToolOutcome)
    (hst : (st == 200) = false)
    (hcontent : (content.isEmpty = false && containsSub openTagL content) = true)
    (hcalls : (parse_xml_tool_calls content).isEmpty = false)
    (hdata : (dispatchXml bX (parse_xml_tool_calls content)).isEmpty = false) :
    processMessageCore [] content (CallOutcome.http st txt) bJ bX =
      Except.ok
        { message := ("I\x27ve completed the task.").toList,
          tool_calls := some (dispatchXml bX (parse_xml_tool_calls content)) } := by
  unfold processMessageCore
  rw [if_neg (by simp : ¬(([] : List StructuredCall).isEmpty = false))]
  rw [if_pos hcontent, if_pos hcalls, if_pos hdata]
  simp only [synthOutcome]
  rw [if_neg (by simp [hst] : ¬((st == 200) = true))]
  show Except.ok
      (finalizeMessage (("I\x27ve completed the task.").toList)
        (dispatchXml bX (parse_xml_tool_calls content))) = _
  unfold finalizeMessage
  rw [if_neg (by decide :
    ¬((stripSpaces (subSpans (("I\x27ve completed the task.").toList))).isEmpty = true))]
  rw [if_neg (by simp [hdata] :
    ¬((dispatchXml bX (parse_xml_tool_calls content)).isEmpty = true))]
  rfl

/-- C7 witness: a fallback-grammar turn with one `list_tasks` call and a 503
synthesis response yields the fixed fallback reply with the single executed
tool record attached. -/
theorem c7_witness :
    ((("<tool_call><function=list_tasks></function></tool_call>").toList).isEmpty = false &&
        containsSub openTagL
          (("<tool_call><function=list_tasks></function></tool_call>").toList)) = true ∧
      processMessageCore []
          (("<tool_call><function=list_tasks></function></tool_call>").toList)
          (CallOutcome.http 503 [])
          (fun _ _ => ToolOutcome.ok Json.null)
          (fun _ _ => ToolOutcome.ok (Json.obj [(("count").toList, Json.num (("0").toList))])) =
        Except.ok
          { message := ("I\x27ve completed the task.").toList,
            tool_calls :=
              some
                [{ tool_name := ("list_tasks").toList,
                   parameters := Json.obj [],
                   result := Json.obj [(("count").toList, Json.num (("0").toList))] }] } :=
  ⟨by decide,
    c7_synth_error_fixed_fallback
      (("<tool_call><function=list_tasks></function></tool_call>").toList) 503 []
      (fun _ _ => ToolOutcome.ok Json.null)
      (fun _ _ => ToolOutcome.ok (Json.obj [(("count").toList, Json.num (("0").toList))]))
      (by decide) (by decide) (by decide) (by decide)⟩

/-- C7 counterexample: when the synthesis transport raises (e.g. a timeout)
after a tool was executed, the failure propagates — `process_message` returns
an `AgentProcessingError` instead of a reply with the fallback text. -/
theorem c7_counterexample :
    process_message
        { first :=
            FirstOutcome.http 200 []
              (("<tool_call><function=list_tasks></function></tool_call>").toList),
          synth := CallOutcome.raised (("ReadTimeout").toList),
          bJ := fun _ _ => ToolOutcome.ok Json.null,
          bX := fun _ _ => ToolOutcome.ok Json.null } =
      Except.error
        (PyExc.agentProcessingError
          ((("Failed to process message: ").toList) ++ (("ReadTimeout").toList))) :=
  rfl

/-- C4: for every fallback-mode text assembled from well-formed call blocks of
the §6 grammar interleaved with tag-free filler, extraction yields exactly one
ExtractedToolCall per call block, in source order — the stripped function
names with their insert-or-overwrite argument dicts — and exactly as many
calls as there are call blocks; a block with no resolvable function tag is
dropped without an error. -/
theorem c4_wellformed_extraction_count_order (items : List (List Char × GBlock))
    (tail : List Char) (hg : goodItemsB items = true) (ht : ltFreeB tail = true) :
    parse_xml_tool_calls (renderText items tail) = expectedCalls items ∧
      (parse_xml_tool_calls (renderText items tail)).length =
        (items.filter (fun ib => isCallB ib.2)).length := by
  have h := parse_xml_renderText items tail hg ht
  exact ⟨h, by rw [h]; exact expectedCalls_length items⟩

/-- C4 witness: a text with two well-formed call blocks (`add_task`,
`delete_task`) and one junk block between them extracts to exactly the two
calls in source order, the junk block silently dropped. -/
theorem c4_witness :
    goodItemsB
        [(("say ").toList,
          GBlock.call [] (("add_task").toList)
            [⟨[], ("title").toList, (" sleep ").toList⟩] [] []),
         ((" and ").toList, GBlock.junkBlock (("noise").toList)),
         ([], GBlock.call ((" ").toList) (("delete_task").toList)
            [⟨("\n ").toList, ("task_id").toList, ("abc-123").toList⟩] [] (("\n").toList))] =
        true ∧
      parse_xml_tool_calls
          (renderText
            [(("say ").toList,
              GBlock.call [] (("add_task").toList)
                [⟨[], ("title").toList, (" sleep ").toList⟩] [] []),
             ((" and ").toList, GBlock.junkBlock (("noise").toList)),
             ([], GBlock.call ((" ").toList) (("delete_task").toList)
                [⟨("\n ").toList, ("task_id").toList, ("abc-123").toList⟩] [] (("\n").toList))]
            ((" done").toList)) =
        [{ name := ("add_task").toList,
           arguments := [(("title").toList, ArgValue.str (("sleep").toList))] },
         { name := ("delete_task").toList,
           arguments := [(("task_id").toList, ArgValue.str (("abc-123").toList))] }] :=
  ⟨by decide,
    (c4_wellformed_extraction_count_order
      [(("say ").toList,
        GBlock.call [] (("add_task").toList)
          [⟨[], ("title").toList, (" sleep ").toList⟩] [] []),
       ((" and ").toList, GBlock.junkBlock (("noise").toList)),
       ([], GBlock.call ((" ").toList) (("delete_task").toList)
          [⟨("\n ").toList, ("task_id").toList, ("abc-123").toList⟩] [] (("\n").toList))]
      ((" done").toList) (by decide) (by decide)).1⟩

/-- C5: for every rendered call block with parameter value `v`, the extracted
argument is `interpretValue` of the whitespace-trimmed value; and
`interpretValue` implements exactly the claimed case split — a trimmed value
opening with a brace or bracket parses with the (modelled) external JSON
library into the parsed structure, falls back to the raw trimmed string when
parsing fails, and any other value stays the trimmed string. -/
theorem c5_trimmed_value_interpretation (fname pname v : List Char)
    (hf : nameOkB fname = true) (hn : nameOkB pname = true) (hv : ltFreeB v = true) :
    parse_xml_tool_calls
        (renderText [([], GBlock.call [] fname [⟨[], pname, v⟩] [] [])] []) =
      [{ name := stripSpaces fname,
         arguments := [(stripSpaces pname, interpretValue (stripSpaces v))] }] ∧
      (∀ j, jsonStart (stripSpaces v) = true → jsonLoads (stripSpaces v) = some j →
        interpretValue (stripSpaces v) = ArgValue.json j) ∧
      (jsonStart (stripSpaces v) = true → jsonLoads (stripSpaces v) = none →
        interpretValue (stripSpaces v) = ArgValue.str (stripSpaces v)) ∧
      (jsonStart (stripSpaces v) = false →
        interpretValue (stripSpaces v) = ArgValue.str (stripSpaces v)) := by
  refine ⟨?_, ?_, ?_, ?_⟩
  · have hg : goodItemsB [([], GBlock.call [] fname [⟨[], pname, v⟩] [] [])] = true := by
      simp [goodItemsB, goodBlockB, goodParamB, ltFreeB, hf, hn, hv]
      intro x hx
      have hx2 := List.all_eq_true.mp hv x hx
      simpa using hx2
    rw [parse_xml_renderText _ _ hg (by decide)]
    rfl
  · intro j h1 h2
    simp [interpretValue, h1, h2]
  · intro h1 h2
    simp [interpretValue, h1, h2]
  · intro h1
    simp [interpretValue, h1]

/-- C5 witness: the JSON-like value `{"a":1}` round-trips to the parsed
object, and a non-JSON-like value round-trips to the trimmed string, inside a
full extraction of a rendered block. -/
theorem c5_witness :
    parse_xml_tool_calls
        (renderText
          [([], GBlock.call [] (("add_task").toList)
            [⟨[], ("payload").toList, (" \x7b\"a\":1\x7d ").toList⟩] [] [])] []) =
      [{ name := ("add_task").toList,
         arguments :=
           [(("payload").toList,
             ArgValue.json (Json.obj [(("a").toList, Json.num (("1").toList))]))] }] ∧
      interpretValue (stripSpaces ((" \x7b\"a\":1\x7d ").toList)) =
        ArgValue.json (Json.obj [(("a").toList, Json.num (("1").toList))]) := by
  have h := c5_trimmed_value_interpretation (("add_task").toList) (("payload").toList)
    ((" \x7b\"a\":1\x7d ").toList) (by decide) (by decide) (by decide)
  exact ⟨h.1, h.2.1 (Json.obj [(("a").toList, Json.num (("1").toList))]) rfl rfl⟩

/-- C8 counterexample: on the seam input
`<tool_<tool_<tool_call>e</tool_call>call>x</tool_call>call>y</tool_call>`
each of the two cleanup substitutions removes one span but splices the
surrounding text into a new complete span, so the user-visible reply text is
the complete well-formed span `<tool_call>y</tool_call>` — refuting the claim
that no `<tool_call>…</tool_call>` span ever reaches the user. -/
theorem c8_counterexample :
    processMessageCore []
        (("<tool_<tool_<tool_call>e</tool_call>call>x</tool_call>call>y</tool_call>").toList)
        (CallOutcome.http 200 [])
        (fun _ _ => ToolOutcome.ok Json.null)
        (fun _ _ => ToolOutcome.ok Json.null) =
      Except.ok { message := ("<tool_call>y</tool_call>").toList, tool_calls := none } ∧
      containsSub openTagL (("<tool_call>y</tool_call>").toList) = true ∧
      containsSub closeTagL (("<tool_call>y</tool_call>").toList) = true :=
  ⟨rfl, by decide, by decide⟩

/-- C8 (amended): for every fallback-mode text assembled from complete
(well-formed or name-less) `<tool_call>…</tool_call>` blocks and tag-free
filler, with no recoverable call, the cleanup strips every span: the
user-visible reply text is the stripped filler (or the fixed clarifying
default), contains no `<` at all, and in particular no `<tool_call>` or
`</tool_call>` marker reaches the user.  Malformed inputs outside this family
can leak markers and even complete spans (see the counterexample). -/
theorem c8_wellformed_spans_stripped (items : List (List Char × GBlock))
    (tail : List Char) (synth : CallOutcome)
    (bJ : List Char → Json → ToolOutcome)
    (bX : List Char → List (List Char × ArgValue) → ToolOutcome)
    (hg : goodItemsB items = true) (ht : ltFreeB tail = true)
    (hjunk : items.all (fun ib => !(isCallB ib.2)) = true)
    (hne : items.isEmpty = false) :
    processMessageCore [] (renderText items tail) synth bJ bX =
      Except.ok { message := visibleOf items tail, tool_calls := none } ∧
      ltFreeB (visibleOf items tail) = true ∧
      containsSub openTagL (visibleOf items tail) = false ∧
      containsSub closeTagL (visibleOf items tail) = false := by
  obtain ⟨j, b, rest, rfl⟩ : ∃ j b rest, items = (j, b) :: rest := by
    cases items with
    | nil => exact absurd hne (by simp)
    | cons a r => exact ⟨a.1, a.2, r, by rw [Prod.mk.eta]⟩
  have hj : ltFreeB j = true := (goodItemsB_cons hg).1
  have hcontains := @containsSub_renderText_cons j b rest tail hj
  have hnee := @renderText_cons_ne_empty j b rest tail
  have hparse : parse_xml_tool_calls (renderText ((j, b) :: rest) tail) = [] := by
    rw [parse_xml_renderText _ _ hg ht]
    exact expectedCalls_all_junk _ hjunk
  have hsub := subSpans_renderText ((j, b) :: rest) tail hg ht
  have hltj := ltFreeB_junkConcat ((j, b) :: rest) tail hg ht
  have hvis : ltFreeB (visibleOf ((j, b) :: rest) tail) = true := by
    unfold visibleOf
    by_cases he : (stripSpaces (junkConcat ((j, b) :: rest) tail)).isEmpty = true
    · rw [if_pos he]; decide
    · rw [if_neg he]; exact ltFreeB_stripSpaces hltj
  refine ⟨?_, hvis, containsSub_ltFree rfl hvis, containsSub_ltFree rfl hvis⟩
  unfold processMessageCore
  rw [if_neg (by simp : ¬(([] : List StructuredCall).isEmpty = false))]
  rw [if_pos (by simp [hnee, hcontains] :
    ((renderText ((j, b) :: rest) tail).isEmpty = false &&
      containsSub openTagL (renderText ((j, b) :: rest) tail)) = true)]
  rw [if_neg (by simp [hparse] :
    ¬((parse_xml_tool_calls (renderText ((j, b) :: rest) tail)).isEmpty = false))]
  rw [hsub]
  by_cases he : (stripSpaces (junkConcat ((j, b) :: rest) tail)).isEmpty = true
  · rw [if_pos he]
    unfold finalizeMessage
    rw [if_neg (by decide :
      ¬((stripSpaces (subSpans (("I\x27m working on that for you.").toList))).isEmpty = true))]
    unfold visibleOf
    rw [if_pos he]
    rfl
  · rw [if_neg he]
    unfold finalizeMessage
    have hfmlt : ltFreeB (stripSpaces (junkConcat ((j, b) :: rest) tail)) = true :=
      ltFreeB_stripSpaces hltj
    rw [subSpans_of_not_contains (containsSub_ltFree rfl hfmlt), stripSpaces_idem]
    rw [if_neg he]
    unfold visibleOf
    rw [if_neg he]
    rfl

/-- C8 witness: a text with one name-less block between filler pieces yields
the stripped filler as the visible reply, with no tag marker in it. -/
theorem c8_witness :
    goodItemsB [(("hi ").toList, GBlock.junkBlock (("zzz").toList))] = true ∧
      processMessageCore []
          (renderText [(("hi ").toList, GBlock.junkBlock (("zzz").toList))]
            ((" there").toList))
          (CallOutcome.http 200 [])
          (fun _ _ => ToolOutcome.ok Json.null)
          (fun _ _ => ToolOutcome.ok Json.null) =
        Except.ok
          { message := visibleOf [(("hi ").toList, GBlock.junkBlock (("zzz").toList))]
              ((" there").toList),
            tool_calls := none } ∧
      containsSub openTagL
          (visibleOf [(("hi ").toList, GBlock.junkBlock (("zzz").toList))]
            ((" there").toList)) = false :=
  ⟨by decide,
    (c8_wellformed_spans_stripped [(("hi ").toList, GBlock.junkBlock (("zzz").toList))]
      ((" there").toList) (CallOutcome.http 200 [])
      (fun _ _ => ToolOutcome.ok Json.null) (fun _ _ => ToolOutcome.ok Json.null)
      (by decide) (by decide) (by decide) (by decide)).1,
    (c8_wellformed_spans_stripped [(("hi ").toList, GBlock.junkBlock (("zzz").toList))]
      ((" there").toList) (CallOutcome.http 200 [])
      (fun _ _ => ToolOutcome.ok Json.null) (fun _ _ => ToolOutcome.ok Json.null)
      (by decide) (by decide) (by decide) (by decide)).2.2.1⟩
